import Mathlib

/-!
Verification of the quadrature-code transformer
(`src/ffc/compiler/quadrature/optimisedquadraturetransformer.py`).

The transformer's own handlers (`sum`, `product`, `division`,
`create_basis_function`, `__create_mapping_basis`, `__apply_transform`,
`create_function`, `_create_entry_value`) are translated from the source.
The symbolic-algebra helpers they call (`symbolics.py`:
`create_float`, `create_symbol`, `create_product`, `create_sum`,
`create_fraction`, `optimise_code`; `quadraturegenerator_utils.py`:
`create_permutations`, `generate_psi_name`; and the base class
`QuadratureTransformerBase`) are not part of the supplied sources, so they
are modelled from the specification (spec.md §3, §4.1, §4.2); each such
definition carries a doc comment saying so.
-/

/-- DomainTag: the domain classes `BASIS`, `IP`, `GEO`, `CONST` from
`symbolics.py` (spec §3 "DomainTag"). -/
inductive DomainTag
  | BASIS
  | IP
  | GEO
  | CONST
deriving DecidableEq, Repr

/-- Expression nodes of the symbolic algebra core, modelled from the spec
(§3 "Expression node"): numeric literal, named symbol tagged with a domain
class, product, sum and fraction.  Numeric values are rationals standing in
for the Python floats. -/
inductive Expr
  | float (v : ℚ)
  | symbol (name : String) (t : DomainTag)
  | product (cs : List Expr)
  | sum (cs : List Expr)
  | fraction (num den : Expr)

/-- Three-way comparison obtained from a linear order; used to build the
canonical order on expressions that the algebra core sorts by. -/
def cmpO {α : Type} [LinearOrder α] (a b : α) : Ordering :=
  if a < b then .lt else if a = b then .eq else .gt

theorem cmpO_eq_iff {α : Type} [LinearOrder α] {a b : α} :
    cmpO a b = .eq ↔ a = b := by
  unfold cmpO
  rcases lt_trichotomy a b with h | h | h
  · rw [if_pos h]
    simp [ne_of_lt h]
  · subst h
    rw [if_neg (lt_irrefl a), if_pos rfl]
    simp
  · rw [if_neg (not_lt.mpr h.le), if_neg ((ne_of_lt h).symm)]
    simp [(ne_of_lt h).symm]

theorem cmpO_lt_iff {α : Type} [LinearOrder α] {a b : α} :
    cmpO a b = .lt ↔ a < b := by
  unfold cmpO
  rcases lt_trichotomy a b with h | h | h
  · simp [if_pos h, h]
  · subst h
    rw [if_neg (lt_irrefl a), if_pos rfl]
    simp [lt_irrefl]

  · rw [if_neg (not_lt.mpr h.le), if_neg ((ne_of_lt h).symm)]
    simp [not_lt.mpr h.le]

theorem cmpO_swap {α : Type} [LinearOrder α] (a b : α) :
    (cmpO a b).swap = cmpO b a := by
  unfold cmpO
  rcases lt_trichotomy a b with h | h | h
  · rw [if_pos h, if_neg (not_lt.mpr h.le), if_neg ((ne_of_lt h).symm)]
    rfl
  · subst h
    rw [if_neg (lt_irrefl a), if_pos rfl]
    rfl
  · rw [if_neg (not_lt.mpr h.le), if_neg ((ne_of_lt h).symm), if_pos h]
    rfl

theorem cmpO_lt_trans {α : Type} [LinearOrder α] {a b c : α}
    (h1 : cmpO a b = .lt) (h2 : cmpO b c = .lt) : cmpO a c = .lt :=
  cmpO_lt_iff.mpr (lt_trans (cmpO_lt_iff.mp h1) (cmpO_lt_iff.mp h2))

/-- Numeric index of an expression constructor, used so that the canonical
comparison orders different node kinds consistently. -/
def Expr.ctorIdx : Expr → Nat
  | .float _ => 0
  | .symbol _ _ => 1
  | .product _ => 2
  | .sum _ => 3
  | .fraction _ _ => 4

/-- Numeric index of a domain tag, for the canonical comparison. -/
def DomainTag.idx : DomainTag → Nat
  | .BASIS => 0
  | .IP => 1
  | .GEO => 2
  | .CONST => 3

theorem DomainTag.idx_inj : ∀ {s t : DomainTag}, s.idx = t.idx → s = t := by
  intro s t h
  cases s <;> cases t <;> first | rfl | (exfalso; simp [DomainTag.idx] at h)

mutual

/-- Canonical structural comparison on expressions.  Modelled from the spec:
the algebra core keeps a "canonical textual form" for every node (§3, §4.1)
and the real `symbolics.py` (not in src) sorts the operand lists of products
and sums by it; this comparison plays that role in the model. -/
def cmpE : Expr → Expr → Ordering
  | .float a, .float b => cmpO a b
  | .symbol n s, .symbol m t => (cmpO n m).then (cmpO s.idx t.idx)
  | .product as, .product bs => cmpL as bs
  | .sum as, .sum bs => cmpL as bs
  | .fraction a b, .fraction c d => (cmpE a c).then (cmpE b d)
  | a, b => cmpO a.ctorIdx b.ctorIdx

/-- Lexicographic extension of `cmpE` to operand lists. -/
def cmpL : List Expr → List Expr → Ordering
  | [], [] => .eq
  | [], _ :: _ => .lt
  | _ :: _, [] => .gt
  | a :: as, b :: bs => (cmpE a b).then (cmpL as bs)

end

theorem DomainTag.idx_eq_iff {s t : DomainTag} : s.idx = t.idx ↔ s = t :=
  ⟨DomainTag.idx_inj, fun h => h ▸ rfl⟩

mutual

theorem cmpE_eq_iff : ∀ (a b : Expr), cmpE a b = .eq ↔ a = b
  | .float a, .float b => by
    simp [cmpE, cmpO_eq_iff]
  | .symbol n s, .symbol m t => by
    simp [cmpE, Ordering.then_eq_eq, cmpO_eq_iff, DomainTag.idx_eq_iff]
  | .product as, .product bs => by
    simp [cmpE, cmpL_eq_iff as bs]
  | .sum as, .sum bs => by
    simp [cmpE, cmpL_eq_iff as bs]
  | .fraction a b, .fraction c d => by
    simp [cmpE, Ordering.then_eq_eq, cmpE_eq_iff a c, cmpE_eq_iff b d]
  | .float a, .symbol m t => by simp [cmpE, cmpO, Expr.ctorIdx]
  | .float a, .product bs => by simp [cmpE, cmpO, Expr.ctorIdx]
  | .float a, .sum bs => by simp [cmpE, cmpO, Expr.ctorIdx]
  | .float a, .fraction c d => by simp [cmpE, cmpO, Expr.ctorIdx]
  | .symbol n s, .float b => by simp [cmpE, cmpO, Expr.ctorIdx]
  | .symbol n s, .product bs => by simp [cmpE, cmpO, Expr.ctorIdx]
  | .symbol n s, .sum bs => by simp [cmpE, cmpO, Expr.ctorIdx]
  | .symbol n s, .fraction c d => by simp [cmpE, cmpO, Expr.ctorIdx]
  | .product as, .float b => by simp [cmpE, cmpO, Expr.ctorIdx]
  | .product as, .symbol m t => by simp [cmpE, cmpO, Expr.ctorIdx]
  | .product as, .sum bs => by simp [cmpE, cmpO, Expr.ctorIdx]
  | .product as, .fraction c d => by simp [cmpE, cmpO, Expr.ctorIdx]
  | .sum as, .float b => by simp [cmpE, cmpO, Expr.ctorIdx]
  | .sum as, .symbol m t => by simp [cmpE, cmpO, Expr.ctorIdx]
  | .sum as, .product bs => by simp [cmpE, cmpO, Expr.ctorIdx]
  | .sum as, .fraction c d => by simp [cmpE, cmpO, Expr.ctorIdx]
  | .fraction a b, .float c => by simp [cmpE, cmpO, Expr.ctorIdx]
  | .fraction a b, .symbol m t => by simp [cmpE, cmpO, Expr.ctorIdx]
  | .fraction a b, .product cs => by simp [cmpE, cmpO, Expr.ctorIdx]
  | .fraction a b, .sum cs => by simp [cmpE, cmpO, Expr.ctorIdx]

theorem cmpL_eq_iff : ∀ (l1 l2 : List Expr), cmpL l1 l2 = .eq ↔ l1 = l2
  | [], [] => by simp [cmpL]
  | [], _ :: _ => by simp [cmpL]
  | _ :: _, [] => by simp [cmpL]
  | a :: as, b :: bs => by
    simp [cmpL, Ordering.then_eq_eq, cmpE_eq_iff a b, cmpL_eq_iff as bs]

end

instance : DecidableEq Expr := fun a b =>
  decidable_of_iff (cmpE a b = .eq) (cmpE_eq_iff a b)

mutual

theorem cmpE_swap : ∀ (a b : Expr), (cmpE a b).swap = cmpE b a
  | .float a, .float b => by
    simp [cmpE, cmpO_swap]
  | .symbol n s, .symbol m t => by
    simp [cmpE, Ordering.swap_then, cmpO_swap]
  | .product as, .product bs => by
    simp [cmpE, cmpL_swap as bs]
  | .sum as, .sum bs => by
    simp [cmpE, cmpL_swap as bs]
  | .fraction a b, .fraction c d => by
    simp [cmpE, Ordering.swap_then, cmpE_swap a c, cmpE_swap b d]
  | .float a, .symbol m t => by simp [cmpE, cmpO_swap]
  | .float a, .product bs => by simp [cmpE, cmpO_swap]
  | .float a, .sum bs => by simp [cmpE, cmpO_swap]
  | .float a, .fraction c d => by simp [cmpE, cmpO_swap]
  | .symbol n s, .float b => by simp [cmpE, cmpO_swap]
  | .symbol n s, .product bs => by simp [cmpE, cmpO_swap]
  | .symbol n s, .sum bs => by simp [cmpE, cmpO_swap]
  | .symbol n s, .fraction c d => by simp [cmpE, cmpO_swap]
  | .product as, .float b => by simp [cmpE, cmpO_swap]
  | .product as, .symbol m t => by simp [cmpE, cmpO_swap]
  | .product as, .sum bs => by simp [cmpE, cmpO_swap]
  | .product as, .fraction c d => by simp [cmpE, cmpO_swap]
  | .sum as, .float b => by simp [cmpE, cmpO_swap]
  | .sum as, .symbol m t => by simp [cmpE, cmpO_swap]
  | .sum as, .product bs => by simp [cmpE, cmpO_swap]
  | .sum as, .fraction c d => by simp [cmpE, cmpO_swap]
  | .fraction a b, .float c => by simp [cmpE, cmpO_swap]
  | .fraction a b, .symbol m t => by simp [cmpE, cmpO_swap]
  | .fraction a b, .product cs => by simp [cmpE, cmpO_swap]
  | .fraction a b, .sum cs => by simp [cmpE, cmpO_swap]

theorem cmpL_swap : ∀ (l1 l2 : List Expr), (cmpL l1 l2).swap = cmpL l2 l1
  | [], [] => by simp [cmpL]; rfl
  | [], _ :: _ => by simp [cmpL]; rfl
  | _ :: _, [] => by simp [cmpL]; rfl
  | a :: as, b :: bs => by
    simp [cmpL, Ordering.swap_then, cmpE_swap a b, cmpL_swap as bs]

end

theorem cmpE_lt_of_ctor_lt {a b : Expr} (h : a.ctorIdx < b.ctorIdx) :
    cmpE a b = .lt := by
  cases a <;> cases b <;>
    first
    | (simp only [cmpE]; exact cmpO_lt_iff.mpr h)
    | (exfalso; simp [Expr.ctorIdx] at h)

theorem cmpE_ctor_le {a b : Expr} (h : cmpE a b = .lt) :
    a.ctorIdx ≤ b.ctorIdx := by
  cases a <;> cases b <;>
    first
    | (simp only [cmpE] at h; exact le_of_lt (cmpO_lt_iff.mp h))
    | (simp [Expr.ctorIdx])

mutual

theorem cmpE_lt_trans : ∀ (a b c : Expr),
    cmpE a b = .lt → cmpE b c = .lt → cmpE a c = .lt := by
  intro a b c h1 h2
  rcases Nat.lt_or_ge a.ctorIdx c.ctorIdx with hac | hge
  · exact cmpE_lt_of_ctor_lt hac
  · have hab := cmpE_ctor_le h1
    have hbc := cmpE_ctor_le h2
    have hae : a.ctorIdx = b.ctorIdx := by omega
    have hbe : b.ctorIdx = c.ctorIdx := by omega
    cases a <;> cases b <;> cases c <;>
        simp only [Expr.ctorIdx] at hae hbe <;> try omega
    case float.float.float v1 v2 v3 =>
      simp only [cmpE] at h1 h2 ⊢
      exact cmpO_lt_trans h1 h2
    case symbol.symbol.symbol n1 s1 n2 s2 n3 s3 =>
      simp only [cmpE] at h1 h2 ⊢
      rcases Ordering.then_eq_lt.mp h1 with hn1 | ⟨hn1, hs1⟩ <;>
          rcases Ordering.then_eq_lt.mp h2 with hn2 | ⟨hn2, hs2⟩
      · exact Ordering.then_eq_lt.mpr (.inl (cmpO_lt_trans hn1 hn2))
      · have e : n2 = n3 := cmpO_eq_iff.mp hn2
        subst e
        exact Ordering.then_eq_lt.mpr (.inl hn1)
      · have e : n1 = n2 := cmpO_eq_iff.mp hn1
        subst e
        exact Ordering.then_eq_lt.mpr (.inl hn2)
      · have e1 : n1 = n2 := cmpO_eq_iff.mp hn1
        have e2 : n2 = n3 := cmpO_eq_iff.mp hn2
        subst e1
        subst e2
        exact Ordering.then_eq_lt.mpr (.inr ⟨cmpO_eq_iff.mpr rfl, cmpO_lt_trans hs1 hs2⟩)
    case product.product.product as bs cs =>
      simp only [cmpE] at h1 h2 ⊢
      exact cmpL_lt_trans as bs cs h1 h2
    case sum.sum.sum as bs cs =>
      simp only [cmpE] at h1 h2 ⊢
      exact cmpL_lt_trans as bs cs h1 h2
    case fraction.fraction.fraction x1 y1 x2 y2 x3 y3 =>
      simp only [cmpE] at h1 h2 ⊢
      rcases Ordering.then_eq_lt.mp h1 with hn1 | ⟨hn1, hs1⟩ <;>
          rcases Ordering.then_eq_lt.mp h2 with hn2 | ⟨hn2, hs2⟩
      · exact Ordering.then_eq_lt.mpr (.inl (cmpE_lt_trans x1 x2 x3 hn1 hn2))
      · have e : x2 = x3 := cmpE_eq_iff x2 x3 |>.mp hn2
        subst e
        exact Ordering.then_eq_lt.mpr (.inl hn1)
      · have e : x1 = x2 := cmpE_eq_iff x1 x2 |>.mp hn1
        subst e
        exact Ordering.then_eq_lt.mpr (.inl hn2)
      · have e1 : x1 = x2 := cmpE_eq_iff x1 x2 |>.mp hn1
        have e2 : x2 = x3 := cmpE_eq_iff x2 x3 |>.mp hn2
        subst e1
        subst e2
        exact Ordering.then_eq_lt.mpr
          (.inr ⟨(cmpE_eq_iff _ _).mpr rfl, cmpE_lt_trans y1 y2 y3 hs1 hs2⟩)

theorem cmpL_lt_trans : ∀ (l1 l2 l3 : List Expr),
    cmpL l1 l2 = .lt → cmpL l2 l3 = .lt → cmpL l1 l3 = .lt
  | [], [], [] => by intro h1 h2; simp [cmpL] at h1
  | [], [], _ :: _ => by intro h1 h2; simp [cmpL] at h1
  | [], _ :: _, [] => by intro h1 h2; simp [cmpL] at h2
  | [], _ :: _, _ :: _ => by intro h1 h2; simp [cmpL]
  | _ :: _, [], _ => by intro h1 h2; simp [cmpL] at h1
  | _ :: _, _ :: _, [] => by intro h1 h2; simp [cmpL] at h2
  | a :: as, b :: bs, c :: cs => by
    intro h1 h2
    simp only [cmpL] at h1 h2 ⊢
    rcases Ordering.then_eq_lt.mp h1 with hn1 | ⟨hn1, hs1⟩ <;>
        rcases Ordering.then_eq_lt.mp h2 with hn2 | ⟨hn2, hs2⟩
    · exact Ordering.then_eq_lt.mpr (.inl (cmpE_lt_trans a b c hn1 hn2))
    · have e : b = c := cmpE_eq_iff b c |>.mp hn2
      subst e
      exact Ordering.then_eq_lt.mpr (.inl hn1)
    · have e : a = b := cmpE_eq_iff a b |>.mp hn1
      subst e
      exact Ordering.then_eq_lt.mpr (.inl hn2)
    · have e1 : a = b := cmpE_eq_iff a b |>.mp hn1
      have e2 : b = c := cmpE_eq_iff b c |>.mp hn2
      subst e1
      subst e2
      exact Ordering.then_eq_lt.mpr
        (.inr ⟨(cmpE_eq_iff _ _).mpr rfl, cmpL_lt_trans as bs cs hs1 hs2⟩)

end

/-- Boolean less-or-equal induced by a three-way comparison. -/
def leC {α : Type} (cmp : α → α → Ordering) (a b : α) : Bool :=
  match cmp a b with
  | .gt => false
  | _ => true

theorem leC_false_iff {α : Type} {cmp : α → α → Ordering} {a b : α} :
    leC cmp a b = false ↔ cmp a b = .gt := by
  cases h : cmp a b <;> simp [leC, h]

theorem leC_true_iff {α : Type} {cmp : α → α → Ordering} {a b : α} :
    leC cmp a b = true ↔ cmp a b = .lt ∨ cmp a b = .eq := by
  cases h : cmp a b <;> simp [leC, h]

theorem leC_total {α : Type} {cmp : α → α → Ordering}
    (hswap : ∀ a b, (cmp a b).swap = cmp b a) :
    ∀ a b, leC cmp a b = false → leC cmp b a = true := by
  intro a b h
  have hg : cmp a b = .gt := leC_false_iff.mp h
  have : cmp b a = .lt := by
    rw [← hswap a b, hg]
    rfl
  exact leC_true_iff.mpr (.inl this)

theorem leC_antisymm {α : Type} {cmp : α → α → Ordering}
    (heq : ∀ a b, cmp a b = .eq ↔ a = b)
    (hswap : ∀ a b, (cmp a b).swap = cmp b a) :
    ∀ a b, leC cmp a b = true → leC cmp b a = true → a = b := by
  intro a b h1 h2
  rcases leC_true_iff.mp h1 with h | h
  · exfalso
    have : cmp b a = .gt := by
      rw [← hswap a b, h]
      rfl
    rw [leC_true_iff] at h2
    rcases h2 with h2 | h2 <;> rw [this] at h2 <;> cases h2
  · exact (heq a b).mp h

theorem leC_trans {α : Type} {cmp : α → α → Ordering}
    (heq : ∀ a b, cmp a b = .eq ↔ a = b)
    (htr : ∀ a b c, cmp a b = .lt → cmp b c = .lt → cmp a c = .lt) :
    ∀ a b c, leC cmp a b = true → leC cmp b c = true → leC cmp a c = true := by
  intro a b c h1 h2
  rcases leC_true_iff.mp h1 with h1 | h1
  · rcases leC_true_iff.mp h2 with h2 | h2
    · exact leC_true_iff.mpr (.inl (htr a b c h1 h2))
    · have e : b = c := (heq b c).mp h2
      subst e
      exact leC_true_iff.mpr (.inl h1)
  · have e : a = b := (heq a b).mp h1
    subst e
    exact h2

/-- Insertion into a sorted list; stands for the sorting the symbolic algebra
core performs when canonicalizing operand lists and the `l.sort()` call in the
product handler (any sorting algorithm gives the same result for a total,
antisymmetric, transitive order). -/
def insertSorted {α : Type} (le : α → α → Bool) (x : α) : List α → List α
  | [] => [x]
  | y :: ys => if le x y then x :: y :: ys else y :: insertSorted le x ys

/-- Sort by repeated insertion. -/
def sortBy {α : Type} (le : α → α → Bool) (l : List α) : List α :=
  l.foldr (insertSorted le) []

theorem insertSorted_comm {α : Type} (le : α → α → Bool)
    (htot : ∀ a b, le a b = false → le b a = true)
    (hanti : ∀ a b, le a b = true → le b a = true → a = b)
    (htr : ∀ a b c, le a b = true → le b c = true → le a c = true)
    (x y : α) :
    ∀ l, insertSorted le x (insertSorted le y l) =
      insertSorted le y (insertSorted le x l) := by
  intro l
  induction l with
  | nil =>
    simp only [insertSorted]
    cases hxy : le x y <;> cases hyx : le y x
    · have := htot x y hxy
      rw [this] at hyx
      cases hyx
    · simp [hxy, hyx]
    · simp [hxy, hyx]
    · have e : x = y := hanti x y hxy hyx
      subst e
      rfl
  | cons z zs ih =>
    cases hyz : le y z <;> cases hxz : le x z
    · simp [insertSorted, hyz, hxz, ih]
    · have hyx : le y x = false := by
        cases hyx : le y x
        · rfl
        · exfalso
          have := htr y x z hyx hxz
          rw [this] at hyz
          cases hyz
      have hxy : le x y = true := htot y x hyx
      simp [insertSorted, hyz, hxz, hxy, hyx]
    · have hxy : le x y = false := by
        cases hxy : le x y
        · rfl
        · exfalso
          have := htr x y z hxy hyz
          rw [this] at hxz
          cases hxz
      have hyx : le y x = true := htot x y hxy
      simp [insertSorted, hyz, hxz, hxy, hyx]
    · cases hxy : le x y <;> cases hyx : le y x
      · have := htot x y hxy
        rw [this] at hyx
        cases hyx
      · simp [insertSorted, hxy, hyx, hxz, hyz]
      · simp [insertSorted, hxy, hyx, hxz, hyz]
      · have e : x = y := hanti x y hxy hyx
        subst e
        rfl

theorem sortBy_cons {α : Type} (le : α → α → Bool) (x : α) (l : List α) :
    sortBy le (x :: l) = insertSorted le x (sortBy le l) := rfl

theorem sortBy_eq_of_perm {α : Type} (le : α → α → Bool)
    (htot : ∀ a b, le a b = false → le b a = true)
    (hanti : ∀ a b, le a b = true → le b a = true → a = b)
    (htr : ∀ a b c, le a b = true → le b c = true → le a c = true)
    {l1 l2 : List α} (h : l1.Perm l2) : sortBy le l1 = sortBy le l2 := by
  induction h with
  | nil => rfl
  | cons x h ih => rw [sortBy_cons, sortBy_cons, ih]
  | swap x y l =>
    rw [sortBy_cons, sortBy_cons, sortBy_cons, sortBy_cons]
    exact insertSorted_comm le htot hanti htr y x (sortBy le l)
  | trans h1 h2 ih1 ih2 => exact ih1.trans ih2

theorem perm_any {α : Type} (p : α → Bool) {l1 l2 : List α} (h : l1.Perm l2) :
    l1.any p = l2.any p := by
  have hiff : l1.any p = true ↔ l2.any p = true := by
    simp only [List.any_eq_true]
    constructor
    · rintro ⟨x, hx, hp⟩
      exact ⟨x, h.mem_iff.mp hx, hp⟩
    · rintro ⟨x, hx, hp⟩
      exact ⟨x, h.mem_iff.mpr hx, hp⟩
  cases h1 : l1.any p <;> cases h2 : l2.any p <;> simp [h1, h2] at hiff <;> rfl

/-- Boolean less-or-equal on expressions induced by the canonical comparison;
the order the algebra core sorts operand lists by. -/
def exprLe (a b : Expr) : Bool := leC cmpE a b

theorem exprLe_total : ∀ a b, exprLe a b = false → exprLe b a = true :=
  leC_total cmpE_swap

theorem exprLe_antisymm : ∀ a b, exprLe a b = true → exprLe b a = true → a = b :=
  leC_antisymm cmpE_eq_iff cmpE_swap

theorem exprLe_trans :
    ∀ a b c, exprLe a b = true → exprLe b c = true → exprLe a c = true :=
  leC_trans cmpE_eq_iff cmpE_lt_trans

/-- The numeric value of a literal node, if the node is a literal. -/
def litVal : Expr → Option ℚ
  | .float v => some v
  | _ => none

/-- One level of product flattening: a product node contributes its children,
anything else contributes itself. -/
def expandProd : Expr → List Expr
  | .product cs => cs
  | e => [e]

/-- One level of sum flattening. -/
def expandSum : Expr → List Expr
  | .sum cs => cs
  | e => [e]

/-- Modelled from the spec: `create_float` of `symbolics.py` (not in src);
wraps a numeric value as a literal expression node (§4.1 `makeFloat`). -/
def create_float (v : ℚ) : Expr := Expr.float v

/-- Modelled from the spec: `create_symbol` of `symbolics.py` (not in src);
wraps a name and a domain class as a symbol node (§4.1 `makeSymbol`). -/
def create_symbol (name : String) (t : DomainTag) : Expr := Expr.symbol name t

/-- Modelled from the spec: `create_product` of `symbolics.py` (not in src).
Per §4.1 `makeProduct`: flattens nested products, returns literal 0.0
immediately if any factor is literal 0.0, folds all literal factors into one
literal, and drops a literal-1.0 factor.  The remaining factors are kept
sorted in the canonical order (§3: every node carries a canonical textual
rendering; §8 "Permutation invariance" requires products built from the same
factors in either order to be identical). -/
def create_product (l : List Expr) : Expr :=
  let fs := l.flatMap expandProd
  if fs.any (fun e => decide (e = Expr.float 0)) then Expr.float 0
  else
    let c : ℚ := (fs.filterMap litVal).prod
    let vars := sortBy exprLe (fs.filter fun e => (litVal e).isNone)
    let factors := if c = 1 then vars else Expr.float c :: vars
    match factors with
    | [] => Expr.float 1
    | [e] => e
    | es => Expr.product es

/-- Modelled from the spec: `create_sum` of `symbolics.py` (not in src).
Per §4.1 `makeSum`: flattens nested sums, folds all literal addends into one
literal, drops a literal-0.0 addend, and returns literal 0.0 when the
filtered list is empty; non-literal terms are kept in canonical order. -/
def create_sum (l : List Expr) : Expr :=
  let fs := l.flatMap expandSum
  let c : ℚ := (fs.filterMap litVal).sum
  let vars := sortBy exprLe (fs.filter fun e => (litVal e).isNone)
  let terms := if c = 0 then vars else vars ++ [Expr.float c]
  match terms with
  | [] => Expr.float 0
  | [e] => e
  | es => Expr.sum es

/-- Modelled from the spec: `create_fraction` of `symbolics.py` (not in src).
Builds the fraction of two expressions, with the local simplifications of
§4.1 (a zero numerator collapses to literal 0.0, a literal-1.0 denominator
is dropped, a literal-by-literal fraction is folded).  The spec's
`DivisionError` check for non-scalar denominators is enforced by the
division handler of the transformer (§4.4), which is the code under
verification here. -/
def create_fraction (num den : Expr) : Expr :=
  if num = Expr.float 0 then Expr.float 0
  else if den = Expr.float 1 then num
  else
    match litVal num, litVal den with
    | some a, some b => if b ≠ 0 then Expr.float (a / b) else Expr.fraction num den
    | _, _ => Expr.fraction num den

theorem create_product_perm {l1 l2 : List Expr} (h : l1.Perm l2) :
    create_product l1 = create_product l2 := by
  have hf : (l1.flatMap expandProd).Perm (l2.flatMap expandProd) :=
    List.Perm.flatMap_right expandProd h
  unfold create_product
  dsimp only
  rw [perm_any _ hf]
  split
  · rfl
  · rw [(hf.filterMap litVal).prod_eq,
        sortBy_eq_of_perm exprLe exprLe_total exprLe_antisymm exprLe_trans
          (hf.filter (fun e => (litVal e).isNone))]

/-- One basis-function-slot index entry: the 4-tuple
`(ufl_basis_function.count(), basis_map, loop_index_range, space_dim)` built
at the end of `__create_mapping_basis` (source line 355). -/
structure IdxEntry where
  count : Int
  basisMap : String
  range : Nat
  spaceDim : Nat
deriving DecidableEq, Repr

/-- The entry viewed as a lexicographic tuple; Python compares the source's
4-tuples lexicographically, which is exactly the lex order on this image. -/
def IdxEntry.lexKey (e : IdxEntry) : Int ×ₗ (String ×ₗ (Nat ×ₗ Nat)) :=
  toLex (e.count, toLex (e.basisMap, toLex (e.range, e.spaceDim)))

theorem IdxEntry.lexKey_inj {a b : IdxEntry} (h : a.lexKey = b.lexKey) :
    a = b := by
  cases a
  cases b
  simp only [IdxEntry.lexKey, toLex_inj, Prod.mk.injEq] at h
  obtain ⟨h1, h2, h3, h4⟩ := h
  simp [h1, h2, h3, h4]

/-- Three-way comparison of index entries, matching Python's lexicographic
tuple comparison in `l.sort()` of the product handler (source line 111). -/
def cmpIdx (a b : IdxEntry) : Ordering := cmpO a.lexKey b.lexKey

theorem cmpIdx_eq_iff {a b : IdxEntry} : cmpIdx a b = .eq ↔ a = b := by
  unfold cmpIdx
  rw [cmpO_eq_iff]
  exact ⟨IdxEntry.lexKey_inj, fun h => h ▸ rfl⟩

theorem cmpIdx_swap (a b : IdxEntry) : (cmpIdx a b).swap = cmpIdx b a :=
  cmpO_swap a.lexKey b.lexKey

theorem cmpIdx_lt_trans {a b c : IdxEntry} :
    cmpIdx a b = .lt → cmpIdx b c = .lt → cmpIdx a c = .lt :=
  cmpO_lt_trans

/-- Boolean order on index entries used by `sortKey`. -/
def idxLe (a b : IdxEntry) : Bool := leC cmpIdx a b

theorem idxLe_total : ∀ a b, idxLe a b = false → idxLe b a = true :=
  leC_total cmpIdx_swap

theorem idxLe_antisymm : ∀ a b, idxLe a b = true → idxLe b a = true → a = b :=
  leC_antisymm (fun _ _ => cmpIdx_eq_iff) cmpIdx_swap

theorem idxLe_trans :
    ∀ a b c, idxLe a b = true → idxLe b c = true → idxLe a c = true :=
  leC_trans (fun _ _ => cmpIdx_eq_iff) (fun _ _ _ => cmpIdx_lt_trans)

/-- A key of an index-keyed code map: a tuple of index entries (the empty
tuple means a fully reduced scalar entry). -/
abbrev Key := List IdxEntry

/-- An index-keyed code map, the dictionaries the transformer's handlers pass
around (spec §3 "Index-keyed code map"); association list standing for a
Python dict with its insertion order. -/
abbrev CodeMap := List (Key × Expr)

/-- Sorting of a combined key: `l = list(key); l.sort()` in the product
handler (source lines 110-111). -/
def sortKey (k : Key) : Key := sortBy idxLe k

theorem sortKey_eq_of_perm {k1 k2 : Key} (h : k1.Perm k2) :
    sortKey k1 = sortKey k2 :=
  sortBy_eq_of_perm idxLe idxLe_total idxLe_antisymm idxLe_trans h

/-- Dictionary lookup (`key in d`, `d[key]`) on the association-list image of
a Python dict. -/
def lookupKey {κ α : Type} [DecidableEq κ] : List (κ × α) → κ → Option α
  | [], _ => none
  | (k1, v) :: rest, k => if k1 = k then some v else lookupKey rest k

/-- One step of the dict-of-lists accumulation
`if key in code: code[key].append(val) else: code[key] = [val]` used by the
sum handler (source lines 66-70) and `create_basis_function`
(source lines 239-242, 266-270). -/
def addPair {κ α : Type} [DecidableEq κ] (acc : List (κ × List α)) (k : κ)
    (v : α) : List (κ × List α) :=
  match lookupKey acc k with
  | some _ => acc.map fun kv => if kv.1 = k then (kv.1, kv.2 ++ [v]) else kv
  | none => acc ++ [(k, [v])]

/-- Accumulate a sequence of (key, value) pairs into a dict of lists, in
order. -/
def collectPairs {κ α : Type} [DecidableEq κ] (ps : List (κ × α)) :
    List (κ × List α) :=
  ps.foldl (fun acc p => addPair acc p.1 p.2) []

/-- Reduce one accumulated entry: `create_sum(val)` when more than one value
contributed, the single value unchanged otherwise (source lines 73-77 and
272-277).  The empty list cannot arise from `collectPairs`; the source
raises there ("Where did the values go?"). -/
def groupEntry : List Expr → Expr
  | [v] => v
  | vs => create_sum vs

/-- Reduce every accumulated entry with `groupEntry`. -/
def finishEntries (m : List (Key × List Expr)) : CodeMap :=
  m.map fun kv => (kv.1, groupEntry kv.2)

/-- First-some choice, the shape of a lookup in an appended association
list. -/
def orLk {α : Type} (o1 o2 : Option α) : Option α :=
  match o1 with
  | some v => some v
  | none => o2

theorem lookup_append {κ α : Type} [DecidableEq κ] (l1 l2 : List (κ × α))
    (k : κ) :
    lookupKey (l1 ++ l2) k = orLk (lookupKey l1 k) (lookupKey l2 k) := by
  induction l1 with
  | nil => rfl
  | cons p rest ih =>
    obtain ⟨k1, v⟩ := p
    by_cases hk : k1 = k
    · simp [lookupKey, hk, orLk]
    · simp [lookupKey, hk, ih]

theorem lookup_map_update {κ α : Type} [DecidableEq κ]
    (acc : List (κ × List α)) (k : κ) (v : α) (k2 : κ) :
    lookupKey (acc.map fun kv => if kv.1 = k then (kv.1, kv.2 ++ [v]) else kv)
        k2 =
      if k2 = k then (lookupKey acc k2).map (fun vs => vs ++ [v])
      else lookupKey acc k2 := by
  induction acc with
  | nil =>
    simp only [List.map_nil, lookupKey]
    split <;> rfl
  | cons p rest ih =>
    obtain ⟨k1, vs⟩ := p
    by_cases h1 : k1 = k
    · subst h1
      rw [List.map_cons, if_pos (show (k1, vs).1 = k1 from rfl)]
      by_cases h2 : k2 = k1
      · subst h2
        simp [lookupKey]
      · simp [lookupKey, Ne.symm h2, h2, ih]
    · rw [List.map_cons, if_neg (show ¬(k1, vs).1 = k from h1)]
      by_cases h2 : k1 = k2
      · subst h2
        simp [lookupKey, h1]
      · simp [lookupKey, h1, h2, ih]

theorem lookup_addPair {κ α : Type} [DecidableEq κ] (acc : List (κ × List α))
    (k : κ) (v : α) (k2 : κ) :
    lookupKey (addPair acc k v) k2 =
      if k2 = k then some ((lookupKey acc k).getD [] ++ [v])
      else lookupKey acc k2 := by
  unfold addPair
  cases hl : lookupKey acc k with
  | some vs =>
    rw [lookup_map_update]
    by_cases hk : k2 = k
    · subst hk
      rw [if_pos rfl, if_pos rfl, hl]
      rfl
    · simp [hk]
  | none =>
    rw [lookup_append]
    by_cases hk : k2 = k
    · subst hk
      rw [hl]
      simp [lookupKey, orLk]
    · cases h2 : lookupKey acc k2 with
      | some w => simp [hk, orLk, h2, lookupKey, Ne.symm hk]
      | none => simp [hk, orLk, h2, lookupKey, Ne.symm hk]

/-- The list of values a pair sequence contributes at one key. -/
def contribAt {κ α : Type} [DecidableEq κ] (ps : List (κ × α)) (k : κ) :
    List α :=
  (ps.filter fun p => decide (p.1 = k)).map Prod.snd

theorem contribAt_nil {κ α : Type} [DecidableEq κ] (k : κ) :
    contribAt ([] : List (κ × α)) k = [] := rfl

theorem contribAt_cons {κ α : Type} [DecidableEq κ] (p : κ × α)
    (ps : List (κ × α)) (k : κ) :
    contribAt (p :: ps) k =
      if p.1 = k then p.2 :: contribAt ps k else contribAt ps k := by
  by_cases h : p.1 = k <;> simp [contribAt, h]

theorem lookup_foldl_addPair {κ α : Type} [DecidableEq κ]
    (ps : List (κ × α)) :
    ∀ (acc : List (κ × List α)) (k : κ),
      lookupKey (ps.foldl (fun a p => addPair a p.1 p.2) acc) k =
        orLk ((lookupKey acc k).map (fun vs => vs ++ contribAt ps k))
          (if (contribAt ps k).isEmpty then none else some (contribAt ps k)) := by
  induction ps with
  | nil =>
    intro acc k
    cases h : lookupKey acc k <;> simp [h, orLk, contribAt]
  | cons p ps ih =>
    intro acc k
    simp only [List.foldl_cons]
    rw [ih (addPair acc p.1 p.2) k, lookup_addPair, contribAt_cons]
    by_cases hk : k = p.1
    · subst hk
      rw [if_pos rfl, if_pos rfl]
      cases h : lookupKey acc p.1 with
      | some vs => simp [orLk, h, List.append_assoc]
      | none => simp [orLk, h]
    · rw [if_neg hk, if_neg (show ¬p.1 = k from fun he => hk he.symm)]

theorem lookup_collectPairs {κ α : Type} [DecidableEq κ] (ps : List (κ × α))
    (k : κ) :
    lookupKey (collectPairs ps) k =
      if (contribAt ps k).isEmpty then none else some (contribAt ps k) := by
  unfold collectPairs
  rw [lookup_foldl_addPair ps [] k]
  rfl

theorem lookup_finishEntries (m : List (Key × List Expr)) (k : Key) :
    lookupKey (finishEntries m) k = (lookupKey m k).map groupEntry := by
  induction m with
  | nil => rfl
  | cons p rest ih =>
    obtain ⟨k1, vs⟩ := p
    by_cases h : k1 = k
    · simp [finishEntries, lookupKey, h]
    · simp only [finishEntries, List.map_cons, lookupKey, if_neg h] at ih ⊢
      exact ih

theorem lookup_eq_none_of_not_mem {κ α : Type} [DecidableEq κ]
    {op : List (κ × α)} {k : κ} (h : k ∉ op.map Prod.fst) :
    lookupKey op k = none := by
  induction op with
  | nil => rfl
  | cons p rest ih =>
    simp only [List.map_cons, List.mem_cons, not_or] at h
    have h1 : ¬p.1 = k := fun he => h.1 he.symm
    simp [lookupKey, h1, ih h.2]

theorem contribAt_eq_of_nodup {κ α : Type} [DecidableEq κ]
    {op : List (κ × α)} (hnd : (op.map Prod.fst).Nodup) (k : κ) :
    contribAt op k =
      match lookupKey op k with
      | some v => [v]
      | none => [] := by
  induction op with
  | nil => rfl
  | cons p rest ih =>
    simp only [List.map_cons, List.nodup_cons] at hnd
    rw [contribAt_cons]
    by_cases h : p.1 = k
    · subst h
      have hnone : lookupKey rest p.1 = none := lookup_eq_none_of_not_mem hnd.1
      have hc : contribAt rest p.1 = [] := by
        rw [ih hnd.2, hnone]
      simp [lookupKey, hc]
    · simp [lookupKey, h, ih hnd.2]

/-- Restriction of a form to a facet side: `"+"`, `"-"` or `None` in the
source. -/
inductive Restriction
  | plus
  | minus
  | nores
deriving DecidableEq, Repr

/-- The geometric mapping kinds `AFFINE`, `COVARIANT_PIOLA`,
`CONTRAVARIANT_PIOLA` imported from `ffc.fem.finiteelement` (spec §3
"Mapping kind").  They form a closed enumeration, so the source's
"Transformation is not supported" branch has no representable input here. -/
inductive Transformation
  | affine
  | covariantPiola
  | contravariantPiola
deriving DecidableEq, Repr

/-- The string-keyed format dictionary the transformer receives
(`self.format`); an external backend concern (spec §6), modelled as a record
of opaque string-producing functions, one per key the transformer uses. -/
structure Format where
  integrationPoints : String
  firstFreeIndex : String
  secondFreeIndex : String
  matrixAccess : String → String → String
  nonzeroColumns : Nat → String
  arrayAccess : String → String
  grouping : String → String
  add : List String → String
  transform : String → Nat → Nat → Restriction → String
  determinant : Restriction → String

/-- One value of `self.name_map`: `(name, non_zeros, zeros, ones)` as
unpacked at source line 322. -/
structure NameMapEntry where
  name : String
  nonZeros : Option (Nat × List Nat)
  zeros : Bool
  ones : Bool

/-- The FFC element object; the transformer only uses
`ffc_element.space_dimension()` (source line 313). -/
structure FFCElement where
  spaceDimension : Nat
deriving DecidableEq, Repr

/-- The UFL basis-function leaf; the transformer uses `count()` and its
element (as a key into `element_map`, here an opaque identifier). -/
structure UflBasisFunction where
  count : Int
  element : Nat
deriving DecidableEq, Repr

/-- The transformer state consulted by `__create_mapping_basis`,
`create_basis_function` and `create_function`: formats, restriction, facets,
quadrature-point count, geometric dimension, the table metadata maps, the
optimisation options, and the two helpers whose code is not in src
(`generate_psi_name` of quadraturegenerator_utils and
`_create_function_name` of the base class), modelled as opaque functions of
exactly the arguments the source passes them. -/
structure TransCtx where
  fmt : Format
  restriction : Restriction
  facet0 : Option Nat
  facet1 : Option Nat
  points : Nat
  geo_dim : Nat
  elementMap : Nat → Nat → Nat
  nameMap : String → NameMapEntry
  tableCols : String → Nat
  ignoreZeroTables : Bool
  removeZeroTerms : Bool
  ignoreOnes : Bool
  genPsiName : Nat → Option Nat → Nat → List Nat → String
  createFunctionName : Nat → List Nat → Option Expr

/-- The failures the embedded handlers can raise: `error(...)` calls and the
Python `KeyError` a failed dict subscript raises. -/
inductive TransErr
  | invalidIndex
  | unsupportedDenominator
  | keyError
  | wrongOperandCount
  | keyCollision
  | emptyFunctionName
deriving DecidableEq, Repr

/-- The numeric value of a decimal digit character, if it is one. -/
def charDigit (c : Char) : Option Nat :=
  if 48 ≤ c.toNat ∧ c.toNat ≤ 57 then some (c.toNat - 48) else none

/-- Accumulating decimal reading of a character list. -/
def natCharsAux : List Char → Nat → Option Nat
  | [], acc => some acc
  | c :: cs, acc =>
    match charDigit c with
    | some d => natCharsAux cs (acc * 10 + d)
    | none => none

/-- The numeral denoted by a non-empty all-digit character list. -/
def natChars : List Char → Option Nat
  | [] => none
  | cs => natCharsAux cs 0

/-- Split a character list at every occurrence of the separator " + ",
mirroring `str.split(" + ")` on the strings this code builds. -/
def splitPlusAux : List Char → List Char → List (List Char)
  | ' ' :: '+' :: ' ' :: rest, acc => acc.reverse :: splitPlusAux rest []
  | c :: rest, acc => splitPlusAux rest (c :: acc)
  | [], acc => [acc.reverse]

/-- The `try: basis_map = str(eval(basis_map)) except: pass` of source lines
346-349: Python evaluates the string when it is a closed arithmetic
expression ("(3 + 2)" becomes "5") and leaves it unchanged when evaluation
raises (a free index name such as "j").  Modelled for the string shapes this
code builds: a bare numeral, or a parenthesised sum of two numerals. -/
def tryEval (s : String) : String :=
  match natChars s.data with
  | some n => toString n
  | none =>
    match s.data with
    | '(' :: rest =>
      match rest.getLast? with
      | some ')' =>
        match splitPlusAux rest.dropLast [] with
        | [a, b] =>
          match natChars a, natChars b with
          | some x, some y => toString (x + y)
          | _, _ => s
        | _ => s
      | _ => s
    | _ => s

/-- Map a fallible step over a list, stopping at the first failure; the
Except image of a Python for-loop whose body may raise. -/
def exceptMap {ε α β : Type} (f : α → Except ε β) : List α → Except ε (List β)
  | [] => .ok []
  | a :: as => do
    let b ← f a
    let bs ← exceptMap f as
    .ok (b :: bs)

theorem exceptMap_ok {ε α β : Type} (f : α → Except ε β) (g : α → β) :
    ∀ (l : List α), (∀ a ∈ l, f a = .ok (g a)) →
      exceptMap f l = .ok (l.map g) := by
  intro l
  induction l with
  | nil => intro _; rfl
  | cons a as ih =>
    intro h
    have ha : f a = .ok (g a) := h a (List.mem_cons_self a as)
    have hrest := ih fun x hx => h x (List.mem_cons_of_mem a hx)
    simp only [exceptMap, ha, hrest]
    rfl

namespace QuadratureTransformerOpt

/-- The `sum` handler (source lines 58-81): collect every operand entry into
a dict of value lists keyed by the entry key, then reduce each list with
`create_sum` when it has more than one element and with the single value
otherwise.  (`collectPairs` never produces an empty value list; the source
raises "Where did the values go?" there.) -/
def sum (operands : List CodeMap) : CodeMap :=
  finishEntries (collectPairs (operands.flatMap id))

/-- The operand partition of the `product` handler (source lines 86-94): an
operand with more than one entry, or whose (single) key is not the empty
tuple, needs permutation; an operand with exactly the empty-key entry
contributes its value as a scalar factor; an empty operand map contributes
nothing. -/
def partitionOps : List CodeMap → List CodeMap × List Expr
  | [] => ([], [])
  | op :: rest =>
    let r := partitionOps rest
    match op with
    | [] => r
    | [([], v)] => (r.1, v :: r.2)
    | _ => (op :: r.1, r.2)

/-- Modelled from the spec: `create_permutations` of
`quadraturegenerator_utils.py` (not in src).  Per §4.2 the product of
index-keyed maps is formed over the Cartesian product of the operands'
keys: each combined key is the concatenation of constituent keys, each
combined value the list of contributing values, outer operand first. -/
def create_permutations : List CodeMap → List (Key × List Expr)
  | [] => []
  | [op] => op.map fun kv => (kv.1, [kv.2])
  | op :: rest =>
    let r := create_permutations rest
    op.flatMap fun kv0 => r.map fun kv1 => (kv0.1 ++ kv1.1, kv0.2 :: kv1.2)

/-- The output loop of the `product` handler (source lines 107-116): sort
each combined key, raise if the sorted key is already present, otherwise
store the product of the combined values and the scalar factors. -/
def productFold (not_permute : List Expr) :
    List (Key × List Expr) → CodeMap → Except TransErr CodeMap
  | [], code => .ok code
  | (key, val) :: rest, code =>
    let l := sortKey key
    if (lookupKey code l).isSome then .error .keyCollision
    else productFold not_permute rest (code ++ [(l, create_product (val ++ not_permute))])

/-- The `product` handler (source lines 83-119). -/
def product (operands : List CodeMap) : Except TransErr CodeMap :=
  let pn := partitionOps operands
  let permutations := create_permutations pn.1
  if permutations.isEmpty then .ok [([], create_product pn.2)]
  else productFold pn.2 permutations []

/-- The `division` handler (source lines 121-145): exactly two operands;
the guard `not () in denominator_code and len(denominator_code) != 1`
(source line 133) raises `error(...)`; otherwise `denominator_code[()]` is
read (a Python `KeyError` when the empty key is absent) and every numerator
entry is divided by it. -/
def division (operands : List CodeMap) : Except TransErr CodeMap :=
  match operands with
  | [numerator_code, denominator_code] =>
    if (lookupKey denominator_code []).isNone ∧ denominator_code.length ≠ 1 then
      .error .unsupportedDenominator
    else
      match lookupKey denominator_code [] with
      | none => .error .keyError
      | some denominator =>
        .ok (numerator_code.map fun kv => (kv.1, create_fraction kv.2 denominator))
  | _ => .error .wrongOperandCount

/-- The `indices` dict of `__create_mapping_basis` (source lines 289-292):
the four reserved test/trial slot tags and the free-index name each maps
to. -/
def indices (fmt : Format) (count : Int) : Option String :=
  if count = -2 then some fmt.firstFreeIndex
  else if count = -1 then some fmt.secondFreeIndex
  else if count = 0 then some fmt.firstFreeIndex
  else if count = 1 then some fmt.secondFreeIndex
  else none

/-- Facet selection (source line 299):
`{"+": self.facet0, "-": self.facet1, None: self.facet0}[self.restriction]`. -/
def facetOf (ctx : TransCtx) : Option Nat :=
  match ctx.restriction with
  | .plus => ctx.facet0
  | .minus => ctx.facet1
  | .nores => ctx.facet0

/-- The psi-table name (source lines 302 and 321):
`generate_psi_name(element_counter, facet, component, deriv)` with
`element_counter = element_map[points][element]`. -/
def psiNameOf (ctx : TransCtx) (component : Nat) (deriv : List Nat)
    (bf : UflBasisFunction) : String :=
  ctx.genPsiName (ctx.elementMap ctx.points bf.element) (facetOf ctx)
    component deriv

/-- The basis/loop-index selection of `__create_mapping_basis` (source lines
326-334): an all-zero table (with the relevant optimisation on) gives
literal 0 and registers nothing; an all-ones table with singleton loop range
(with "ignore ones" on) gives literal 1 and pins the loop index to "0";
otherwise a BASIS symbol over the table is built and recorded in
`psi_tables_map`.  Returns (basis, loop index, recorded binding). -/
def basisChoice (ctx : TransCtx) (nm : NameMapEntry) (basis_access : String)
    (loop_index : String) (loop_index_range : Nat) :
    Expr × String × Option (Expr × String) :=
  if nm.zeros ∧ (ctx.ignoreZeroTables ∨ ctx.removeZeroTerms) then
    (create_float 0, loop_index, none)
  else if ctx.ignoreOnes ∧ loop_index_range = 1 ∧ nm.ones then
    (create_float 1, "0", none)
  else
    let b := create_symbol (nm.name ++ basis_access) DomainTag.BASIS
    (b, loop_index, some (b, nm.name))

/-- The non-zero-columns mapping (source lines 337-341). -/
def basisMapNZ (ctx : TransCtx) (nonZeros : Option (Nat × List Nat))
    (loop_index : String) : String :=
  match nonZeros with
  | none => loop_index
  | some nz =>
    if loop_index = "0" then toString (nz.2.headD 0)
    else ctx.fmt.nonzeroColumns nz.1 ++ ctx.fmt.arrayAccess loop_index

/-- The basis map of `__create_mapping_basis` before the restriction offset
is applied (source lines 305-341, given the loop index selected by the
`indices` dict): matrix access to the table at the integration point, the
zeros/ones short-circuits, and the non-zero-columns mapping. -/
def preOffsetBasisMap (ctx : TransCtx) (component : Nat) (deriv : List Nat)
    (bf : UflBasisFunction) (loop_index : String) : String :=
  let format_ip := if ctx.points = 1 then "0" else ctx.fmt.integrationPoints
  let basis_access := ctx.fmt.matrixAccess format_ip loop_index
  let nm := ctx.nameMap (psiNameOf ctx component deriv bf)
  let loop_index_range := ctx.tableCols nm.name
  let bc := basisChoice ctx nm basis_access loop_index loop_index_range
  basisMapNZ ctx nm.nonZeros bc.2.1

/-- The body of `__create_mapping_basis` (source lines 298-357) after the
slot-tag lookup succeeded with `loop_index`: builds the index entry
`(count, basis_map, loop_index_range, space_dim)` together with the basis
expression and the `psi_tables_map` binding recorded (if any).  The
restriction doubles the space dimension and, on the negative side, wraps the
basis map in `grouping(add([basis_map, str(space_dim)]))`; the `eval`
folding is `tryEval`. -/
def mapping_basis_core (ctx : TransCtx) (component : Nat) (deriv : List Nat)
    (bf : UflBasisFunction) (elem : FFCElement) (loop_index : String) :
    IdxEntry × Expr × Option (Expr × String) :=
  let format_ip := if ctx.points = 1 then "0" else ctx.fmt.integrationPoints
  let basis_access := ctx.fmt.matrixAccess format_ip loop_index
  let space_dim := elem.spaceDimension
  let offset : String :=
    match ctx.restriction with
    | .plus => ""
    | .minus => toString space_dim
    | .nores => ""
  let space_dim2 :=
    if ctx.restriction = .plus ∨ ctx.restriction = .minus then space_dim * 2
    else space_dim
  let nm := ctx.nameMap (psiNameOf ctx component deriv bf)
  let loop_index_range := ctx.tableCols nm.name
  let bc := basisChoice ctx nm basis_access loop_index loop_index_range
  let basis_map := basisMapNZ ctx nm.nonZeros bc.2.1
  let basis_map2 :=
    if offset ≠ "" then ctx.fmt.grouping (ctx.fmt.add [basis_map, offset])
    else basis_map
  (⟨bf.count, tryEval basis_map2, loop_index_range, space_dim2⟩, bc.1, bc.2.2)

/-- `__create_mapping_basis` (source lines 281-357): fails with the
`InvalidIndexError` of source line 296 when the slot tag is not one of
-2, -1, 0, 1; otherwise returns the singleton mapping key, the basis
expression, and the recorded `psi_tables_map` binding. -/
def create_mapping_basis (ctx : TransCtx) (component : Nat) (deriv : List Nat)
    (bf : UflBasisFunction) (elem : FFCElement) :
    Except TransErr (Key × Expr × Option (Expr × String)) :=
  match indices ctx.fmt bf.count with
  | none => .error .invalidIndex
  | some loop_index =>
    let r := mapping_basis_core ctx component deriv bf elem loop_index
    .ok ([r.1], r.2.1, r.2.2)

/-- `__apply_transform` (source lines 419-430): one inverse-Jacobian
transform symbol `JINV[multi[i]][derivatives[i]]` (tagged GEO, for the
current restriction) per derivative direction, times the function. -/
def apply_transform (ctx : TransCtx) (function : Expr) (derivatives : List Nat)
    (multi : List Nat) : Expr :=
  let transforms := derivatives.enum.map fun p =>
    create_symbol (ctx.fmt.transform "JINV" (multi.getD p.1 0) p.2
      ctx.restriction) DomainTag.GEO
  create_product (transforms ++ [function])

/-- `deriv = [multi.count(i) for i in range(self.geo_dim)]`, cleared when no
derivative is present (source lines 230-233 and elsewhere). -/
def derivOf (geoDim : Nat) (multi : List Nat) : List Nat :=
  let deriv := (List.range geoDim).map fun i => multi.count i
  if deriv.all (fun d => decide (d = 0)) then [] else deriv

/-- The Piola factor applied to a basis value in the non-affine branch
(source lines 255-264 and 394-403): `JINV[c][local_comp]` for the covariant
mapping, `(1/detJ) * J[c][local_comp]` for the contravariant mapping, all
symbols tagged GEO.  (The affine case never reaches this code.) -/
def piola_basis (ctx : TransCtx) (t : Transformation) (local_comp c : Nat)
    (basis : Expr) : Expr :=
  match t with
  | .covariantPiola =>
    create_product
      [create_symbol (ctx.fmt.transform "JINV" c local_comp ctx.restriction)
        DomainTag.GEO, basis]
  | .contravariantPiola =>
    create_product
      [create_fraction (create_float 1)
        (create_symbol (ctx.fmt.determinant ctx.restriction) DomainTag.GEO),
       create_symbol (ctx.fmt.transform "J" c local_comp ctx.restriction)
        DomainTag.GEO, basis]
  | .affine => basis

/-- The per-multi-index body of `create_basis_function` (source lines
229-270): the affine branch resolves the requested component once; the
non-affine branches loop the geometric dimension `c`, resolve component
`c + local_offset` and multiply by the Piola factor; each produced value is
passed through `__apply_transform`. -/
def cbf_multi (ctx : TransCtx) (bf : UflBasisFunction) (derivatives : List Nat)
    (component local_comp local_offset : Nat) (elem : FFCElement)
    (t : Transformation) (multi : List Nat) :
    Except TransErr (List ((Key × Expr) × Option (Expr × String))) :=
  let deriv := derivOf ctx.geo_dim multi
  match t with
  | .affine => do
    let r ← create_mapping_basis ctx component deriv bf elem
    .ok [((r.1, apply_transform ctx r.2.1 derivatives multi), r.2.2)]
  | t =>
    exceptMap (fun c => do
        let r ← create_mapping_basis ctx (c + local_offset) deriv bf elem
        .ok ((r.1, apply_transform ctx (piola_basis ctx t local_comp c r.2.1)
                derivatives multi), r.2.2))
      (List.range ctx.geo_dim)

/-- `create_basis_function` (source lines 217-279): accumulate the per-multi
values into a dict keyed by the mapping, then reduce each entry with
`create_sum` when several values share a key (source lines 272-277);
alongside, the `psi_tables_map` bindings recorded by the resolutions. -/
def create_basis_function (ctx : TransCtx) (bf : UflBasisFunction)
    (derivatives : List Nat) (component local_comp local_offset : Nat)
    (elem : FFCElement) (t : Transformation)
    (multiindices : List (List Nat)) :
    Except TransErr (CodeMap × List (Expr × String)) := do
  let pss ← exceptMap
    (cbf_multi ctx bf derivatives component local_comp local_offset elem t)
    multiindices
  let ps := pss.flatten
  .ok (finishEntries (collectPairs (ps.map Prod.fst)),
    ps.filterMap fun p => p.2)

/-- The final reduction of `create_function` (source lines 407-412): an
empty code list yields literal 0.0, a single term is returned unwrapped,
several terms are summed. -/
def finishFunction : List Expr → Expr
  | [] => create_float 0
  | [e] => e
  | es => create_sum es

/-- `create_function` (source lines 359-414).  The affine branch skips a
multi-index whose resolution produces no function name
(`if not function_name: continue`, source lines 378-379); the non-affine
branches have no such skip, so an empty resolution there is a failure of
the source (the falsy name would be fed to `create_product`), modelled as
`emptyFunctionName`.  `_create_function_name` lives in the base class (not
in src) and is the opaque `ctx.createFunctionName`, an empty resolution
being `none`. -/
def create_function (ctx : TransCtx) (derivatives : List Nat)
    (component local_comp local_offset : Nat) (t : Transformation)
    (multiindices : List (List Nat)) : Except TransErr Expr :=
  match t with
  | .affine =>
    let code := multiindices.filterMap fun multi =>
      let deriv := derivOf ctx.geo_dim multi
      (ctx.createFunctionName component deriv).map fun fn =>
        apply_transform ctx fn derivatives multi
    .ok (finishFunction code)
  | t => do
    let code ← exceptMap (fun multi =>
        let deriv := derivOf ctx.geo_dim multi
        exceptMap (fun c =>
            match ctx.createFunctionName (c + local_offset) deriv with
            | none => .error .emptyFunctionName
            | some fn =>
              .ok (apply_transform ctx (piola_basis ctx t local_comp c fn)
                derivatives multi))
          (List.range ctx.geo_dim))
      multiindices
    .ok (finishFunction code.flatten)

end QuadratureTransformerOpt

/-- Modelled from the spec: `optimise_code` of `symbolics.py` (not in src).
§4.1/§4.5: the optimisation pass simplifies and CSE-reduces an expression;
the simplification component rebuilds every node bottom-up with the §4.1
constructors.  The CSE naming of hoisted GEO/IP subexpressions is omitted
here: it replaces subexpressions by equal-valued named symbols and neither
produces nor removes a literal-0.0 result, which is all §4.5's
structurally-zero test observes. -/
def optimise_code : Expr → Expr
  | .product cs => create_product (cs.attach.map fun x => optimise_code x.1)
  | .sum cs => create_sum (cs.attach.map fun x => optimise_code x.1)
  | .fraction n d => create_fraction (optimise_code n) (optimise_code d)
  | .float v => .float v
  | .symbol n t => .symbol n t
decreasing_by
  all_goals simp_wf
  all_goals first
    | (have h := List.sizeOf_lt_of_mem x.2; omega)
    | omega

/-- Modelled from the spec: `get_unique_vars` of `symbolics.py` (not in
src); collects the symbols of one domain class occurring in an expression
(used by `_create_entry_value` to record the basis tables a surviving
entry references). -/
def get_unique_vars (t : DomainTag) : Expr → List Expr
  | .symbol n s => if s = t then [Expr.symbol n s] else []
  | .product cs => (cs.attach.map fun x => get_unique_vars t x.1).flatten
  | .sum cs => (cs.attach.map fun x => get_unique_vars t x.1).flatten
  | .fraction n d => get_unique_vars t n ++ get_unique_vars t d
  | .float _ => []
decreasing_by
  all_goals simp_wf
  all_goals first
    | (have h := List.sizeOf_lt_of_mem x.2; omega)
    | omega

/-- The result of `_create_entry_value`: the optimised entry value, the
structurally-zero flag, and the psi-table names recorded into
`used_psi_tables` (empty when the value is zero). -/
structure EntryResult where
  value : Expr
  zero : Bool
  usedTables : List String
deriving DecidableEq

namespace QuadratureTransformerOpt

/-- `_create_entry_value` (source lines 468-483): multiply the entry value
by the quadrature weight and the GEO-tagged scale factor, optimise, then
flag zero.  The source's test `if not value.val` is modelled per spec §4.5:
the flag is set exactly when the optimised result is the literal 0.0; only
a surviving (non-zero) value records its basis tables through
`psi_tables_map`. -/
def create_entry_value (val weight : Expr) (scale_factor : String)
    (psi_tables_map : List (Expr × String)) : EntryResult :=
  let value := create_product [val, weight,
    create_symbol scale_factor DomainTag.GEO]
  let value2 := optimise_code value
  if value2 = Expr.float 0 then
    ⟨value2, true, []⟩
  else
    ⟨value2, false,
      ((get_unique_vars DomainTag.BASIS value2).filterMap fun b =>
        lookupKey psi_tables_map b).dedup⟩

end QuadratureTransformerOpt

instance {e a : Type} [DecidableEq e] [DecidableEq a] :
    DecidableEq (Except e a) := fun x y =>
  match x, y with
  | .error e1, .error e2 =>
    if h : e1 = e2 then .isTrue (h ▸ rfl)
    else .isFalse (by intro hh; cases hh; exact h rfl)
  | .ok a1, .ok a2 =>
    if h : a1 = a2 then .isTrue (h ▸ rfl)
    else .isFalse (by intro hh; cases hh; exact h rfl)
  | .error _, .ok _ => .isFalse (by intro hh; cases hh)
  | .ok _, .error _ => .isFalse (by intro hh; cases hh)

/-- A concrete format record used by the closed witness and counterexample
statements (the shapes follow the C-style emitter conventions of the
`format` dictionaries under `src/src/ffc/format/`). -/
def sampleFmt : Format where
  integrationPoints := "ip"
  firstFreeIndex := "j"
  secondFreeIndex := "k"
  matrixAccess := fun a b => "[" ++ a ++ "][" ++ b ++ "]"
  nonzeroColumns := fun n => "nzc" ++ toString n
  arrayAccess := fun s => "[" ++ s ++ "]"
  grouping := fun s => "(" ++ s ++ ")"
  add := fun l => String.intercalate " + " l
  transform := fun t j k _ => t ++ "_" ++ toString j ++ toString k
  determinant := fun _ => "detJ"

/-- A concrete transformer state used by the closed witness and
counterexample statements. -/
def sampleCtx : TransCtx where
  fmt := sampleFmt
  restriction := .nores
  facet0 := none
  facet1 := none
  points := 2
  geo_dim := 2
  elementMap := fun _ e => e
  nameMap := fun n => ⟨n, none, false, false⟩
  tableCols := fun _ => 3
  ignoreZeroTables := false
  removeZeroTerms := false
  ignoreOnes := false
  genPsiName := fun ec _ c _ => "FE" ++ toString ec ++ "_C" ++ toString c
  createFunctionName := fun c _ => some (Expr.symbol ("w" ++ toString c) DomainTag.IP)

/-- C1 counterexample: a denominator map holding exactly one entry at a
non-empty key does not reduce to the empty-key scalar entry, so the claim
predicates failure with `UnsupportedDenominatorError`; the handler's guard
(`not () in denominator_code and len(denominator_code) != 1`, source line
133) does not fire for it, and the subscript `denominator_code[()]` raises a
plain `KeyError` instead. -/
theorem C1_division_counterexample :
    QuadratureTransformerOpt.division
        [[([], Expr.symbol "x" DomainTag.BASIS)],
         [([⟨0, "j", 3, 3⟩], Expr.symbol "y" DomainTag.BASIS)]] =
      .error .keyError ∧
    QuadratureTransformerOpt.division
        [[([], Expr.symbol "x" DomainTag.BASIS)],
         [([⟨0, "j", 3, 3⟩], Expr.symbol "y" DomainTag.BASIS)]] ≠
      .error .unsupportedDenominator := by
  constructor
  · rfl
  · decide

/-- C1 (amended): the division handler requires exactly two operand maps
(anything else is an operand-count error).  With two operands, if the
denominator map has an empty-key entry, every numerator entry is replaced by
the fraction of its value over that empty-key value with keys unchanged
(even when the denominator map has further entries); if the denominator map
has no empty-key entry, compilation fails — with
`UnsupportedDenominatorError` when the map does not have exactly one entry,
and with a key-lookup error (Python `KeyError`) when it has exactly one. -/
theorem C1_division_amended (num den : CodeMap) :
    QuadratureTransformerOpt.division [num, den] =
      (match lookupKey den [] with
       | some d => .ok (num.map fun kv => (kv.1, create_fraction kv.2 d))
       | none =>
         if den.length = 1 then .error .keyError
         else .error .unsupportedDenominator) ∧
    ∀ ops : List CodeMap, ops.length ≠ 2 →
      QuadratureTransformerOpt.division ops = .error .wrongOperandCount := by
  constructor
  · have hdiv : QuadratureTransformerOpt.division [num, den] =
        (if (lookupKey den []).isNone = true ∧ den.length ≠ 1 then
          Except.error TransErr.unsupportedDenominator
        else
          match lookupKey den [] with
          | none => Except.error TransErr.keyError
          | some denominator =>
            Except.ok (num.map fun kv => (kv.1, create_fraction kv.2 denominator))) :=
      rfl
    rw [hdiv]
    cases hd : lookupKey den [] with
    | some d =>
      rw [if_neg (by simp)]
    | none =>
      by_cases hl : den.length = 1
      · rw [if_neg (by simp [hl]), if_pos hl]
      · rw [if_pos (by simp [hl]), if_neg hl]
  · intro ops h
    match ops with
    | [] => rfl
    | [a] => rfl
    | [a, b] => exact absurd rfl h
    | a :: b :: c :: rest => rfl

theorem contribAt_append {κ α : Type} [DecidableEq κ] (l1 l2 : List (κ × α))
    (k : κ) : contribAt (l1 ++ l2) k = contribAt l1 k ++ contribAt l2 k := by
  simp [contribAt, List.filter_append]

theorem contribAt_flatMap_id (operands : List CodeMap) (k : Key)
    (hnd : ∀ op ∈ operands, (op.map Prod.fst).Nodup) :
    contribAt (operands.flatMap id) k =
      operands.filterMap fun op => lookupKey op k := by
  induction operands with
  | nil => rfl
  | cons op rest ih =>
    have hop := hnd op (List.mem_cons_self op rest)
    have hrest := ih fun x hx => hnd x (List.mem_cons_of_mem op hx)
    rw [List.flatMap_cons, contribAt_append]
    show contribAt op k ++ contribAt (rest.flatMap id) k = _
    rw [hrest, contribAt_eq_of_nodup hop k, List.filterMap_cons]
    cases lookupKey op k <;> rfl

/-- C7: for every sum node, with each operand map a genuine dict (no
duplicate keys), the output map is the key-wise merge of the operands: a key
absent from every operand is absent from the output, a key present in
exactly one operand keeps that operand's value unchanged, and a key present
in several operands maps to `create_sum` of all contributing values in
operand order (source lines 58-81). -/
theorem C7_sum_keywise_merge (operands : List CodeMap) (k : Key)
    (hnd : ∀ op ∈ operands, (op.map Prod.fst).Nodup) :
    lookupKey (QuadratureTransformerOpt.sum operands) k =
      match operands.filterMap fun op => lookupKey op k with
      | [] => none
      | [v] => some v
      | vs => some (create_sum vs) := by
  unfold QuadratureTransformerOpt.sum
  rw [lookup_finishEntries, lookup_collectPairs,
    contribAt_flatMap_id operands k hnd]
  cases hc : operands.filterMap fun op => lookupKey op k with
  | nil => rfl
  | cons v vs =>
    cases vs with
    | nil => rfl
    | cons v2 rest => rfl

/-- C7 witness: a key carried by two operands is summed, a key carried by
one is passed through, a key carried by none is absent. -/
theorem C7_sum_keywise_merge_witness :
    lookupKey
        (QuadratureTransformerOpt.sum
          [[([], Expr.symbol "a" DomainTag.BASIS)],
           [([], Expr.symbol "b" DomainTag.BASIS),
            ([⟨0, "j", 3, 3⟩], Expr.symbol "c" DomainTag.BASIS)]]) [] =
      some (create_sum
        [Expr.symbol "a" DomainTag.BASIS, Expr.symbol "b" DomainTag.BASIS]) :=
  C7_sum_keywise_merge
    [[([], Expr.symbol "a" DomainTag.BASIS)],
     [([], Expr.symbol "b" DomainTag.BASIS),
      ([⟨0, "j", 3, 3⟩], Expr.symbol "c" DomainTag.BASIS)]] [] (by decide)

/-- C3: for a product of two single-free-index operands, the output key is
the sorted tuple of the two combined index assignments, and compiling the
product with the operands in either order yields identical index-keyed maps
(source lines 83-119; key canonicalization at lines 110-111). -/
theorem C3_product_permutation_invariance (e1 e2 : IdxEntry) (va vb : Expr) :
    QuadratureTransformerOpt.product [[([e1], va)], [([e2], vb)]] =
      QuadratureTransformerOpt.product [[([e2], vb)], [([e1], va)]] ∧
    QuadratureTransformerOpt.product [[([e1], va)], [([e2], vb)]] =
      .ok [(sortKey [e1, e2], create_product [va, vb])] := by
  have h1 : QuadratureTransformerOpt.product [[([e1], va)], [([e2], vb)]] =
      .ok [(sortKey [e1, e2], create_product [va, vb])] := rfl
  have h2 : QuadratureTransformerOpt.product [[([e2], vb)], [([e1], va)]] =
      .ok [(sortKey [e2, e1], create_product [vb, va])] := rfl
  refine ⟨?_, h1⟩
  rw [h1, h2, sortKey_eq_of_perm (List.Perm.swap e1 e2 []),
    create_product_perm (List.Perm.swap va vb [])]

theorem productFold_ok (not_permute : List Expr) :
    ∀ (perms : List (Key × List Expr)) (code : CodeMap),
      ((perms.map fun p => sortKey p.1).Nodup) →
      (∀ p ∈ perms, lookupKey code (sortKey p.1) = none) →
      QuadratureTransformerOpt.productFold not_permute perms code =
        .ok (code ++ perms.map fun p =>
          (sortKey p.1, create_product (p.2 ++ not_permute))) := by
  intro perms
  induction perms with
  | nil =>
    intro code _ _
    simp [QuadratureTransformerOpt.productFold]
  | cons p rest ih =>
    intro code hnd habs
    obtain ⟨key, val⟩ := p
    have hhead : lookupKey code (sortKey key) = none :=
      habs (key, val) (List.mem_cons_self _ _)
    simp only [List.map_cons, List.nodup_cons] at hnd
    have hrest : ∀ q ∈ rest,
        lookupKey (code ++ [(sortKey key, create_product (val ++ not_permute))])
          (sortKey q.1) = none := by
      intro q hq
      rw [lookup_append, habs q (List.mem_cons_of_mem _ hq)]
      have hne : sortKey key ≠ sortKey q.1 := by
        intro he
        exact hnd.1 (List.mem_map.mpr ⟨q, hq, he.symm⟩)
      simp [lookupKey, orLk, hne]
    show QuadratureTransformerOpt.productFold not_permute
        ((key, val) :: rest) code = _
    unfold QuadratureTransformerOpt.productFold
    rw [if_neg (by simp [hhead])]
    rw [ih _ hnd.2 hrest]
    simp

/-- C9: the defensive collision branch of the product handler (source lines
112-115) is unreachable whenever the sorted key combinations of the
permutation expansion are pairwise distinct: the handler then succeeds and
stores every permutation entry at its own sorted key, so no entry is ever
silently merged or overwritten. -/
theorem C9_product_collision_unreachable (operands : List CodeMap)
    (hnd : ((QuadratureTransformerOpt.create_permutations
        (QuadratureTransformerOpt.partitionOps operands).1).map
          fun p => sortKey p.1).Nodup) :
    QuadratureTransformerOpt.product operands =
      .ok (if (QuadratureTransformerOpt.create_permutations
            (QuadratureTransformerOpt.partitionOps operands).1).isEmpty then
          [([], create_product (QuadratureTransformerOpt.partitionOps operands).2)]
        else (QuadratureTransformerOpt.create_permutations
            (QuadratureTransformerOpt.partitionOps operands).1).map
          fun p => (sortKey p.1,
            create_product (p.2 ++ (QuadratureTransformerOpt.partitionOps operands).2))) := by
  unfold QuadratureTransformerOpt.product
  dsimp only
  by_cases he : (QuadratureTransformerOpt.create_permutations
      (QuadratureTransformerOpt.partitionOps operands).1).isEmpty
  · rw [if_pos he, if_pos he]
  · rw [if_neg he, if_neg he,
      productFold_ok _ _ [] hnd (fun p _ => rfl)]
    rw [List.nil_append]

/-- C9 witness: two distinct single-index operands give pairwise distinct
sorted keys, and the handler stores each combination at its own key. -/
theorem C9_product_collision_unreachable_witness :
    QuadratureTransformerOpt.product
        [[([⟨0, "j", 3, 3⟩], Expr.symbol "p" DomainTag.BASIS)],
         [([⟨1, "k", 3, 3⟩], Expr.symbol "q" DomainTag.BASIS)]] =
      .ok [(sortKey [⟨0, "j", 3, 3⟩, ⟨1, "k", 3, 3⟩],
        create_product [Expr.symbol "p" DomainTag.BASIS,
          Expr.symbol "q" DomainTag.BASIS])] :=
  C9_product_collision_unreachable
    [[([⟨0, "j", 3, 3⟩], Expr.symbol "p" DomainTag.BASIS)],
     [([⟨1, "k", 3, 3⟩], Expr.symbol "q" DomainTag.BASIS)]] (by decide)

/-- C8: basis resolution succeeds exactly for the four reserved test/trial
slot tags -2, -1, 0, 1 (anything else raises `InvalidIndexError`, source
lines 289-296), and the loop index it resolves under is the format's first
free index for tags -2 and 0 and the second free index for tags -1 and 1. -/
theorem C8_slot_tags (ctx : TransCtx) (component : Nat) (deriv : List Nat)
    (bf : UflBasisFunction) (elem : FFCElement) :
    QuadratureTransformerOpt.create_mapping_basis ctx component deriv bf elem =
      (if bf.count = -2 ∨ bf.count = 0 then
        .ok ([(QuadratureTransformerOpt.mapping_basis_core ctx component deriv
            bf elem ctx.fmt.firstFreeIndex).1],
          (QuadratureTransformerOpt.mapping_basis_core ctx component deriv
            bf elem ctx.fmt.firstFreeIndex).2.1,
          (QuadratureTransformerOpt.mapping_basis_core ctx component deriv
            bf elem ctx.fmt.firstFreeIndex).2.2)
      else if bf.count = -1 ∨ bf.count = 1 then
        .ok ([(QuadratureTransformerOpt.mapping_basis_core ctx component deriv
            bf elem ctx.fmt.secondFreeIndex).1],
          (QuadratureTransformerOpt.mapping_basis_core ctx component deriv
            bf elem ctx.fmt.secondFreeIndex).2.1,
          (QuadratureTransformerOpt.mapping_basis_core ctx component deriv
            bf elem ctx.fmt.secondFreeIndex).2.2)
      else .error .invalidIndex) := by
  unfold QuadratureTransformerOpt.create_mapping_basis
    QuadratureTransformerOpt.indices
  by_cases h2 : bf.count = -2
  · rw [if_pos h2, if_pos (Or.inl h2)]
  · rw [if_neg h2]
    by_cases h1 : bf.count = -1
    · have h0 : ¬bf.count = 0 := by omega
      rw [if_pos h1, if_neg (by tauto), if_pos (Or.inl h1)]
    · rw [if_neg h1]
      by_cases h0 : bf.count = 0
      · rw [if_pos h0, if_pos (Or.inr h0)]
      · rw [if_neg h0]
        by_cases hp1 : bf.count = 1
        · rw [if_pos hp1, if_neg (by tauto), if_pos (Or.inr hp1)]
        · rw [if_neg hp1, if_neg (by tauto), if_neg (by tauto)]

theorem toDigitsCore_length_le (b : Nat) :
    ∀ (f n : Nat) (ds : List Char),
      ds.length ≤ (Nat.toDigitsCore b f n ds).length := by
  intro f
  induction f with
  | zero =>
    intro n ds
    exact le_refl _
  | succ f ih =>
    intro n ds
    unfold Nat.toDigitsCore
    dsimp only
    split
    · simp
    · exact le_trans (by simp) (ih _ _)

theorem toDigitsCore_length_lt (b f n : Nat) (ds : List Char) (hf : 0 < f) :
    ds.length < (Nat.toDigitsCore b f n ds).length := by
  cases f with
  | zero => exact absurd hf (lt_irrefl 0)
  | succ f =>
    unfold Nat.toDigitsCore
    dsimp only
    split
    · simp
    · exact lt_of_lt_of_le (by simp) (toDigitsCore_length_le b f _ _)

theorem natToString_ne_empty (n : Nat) : toString n ≠ "" := by
  show Nat.repr n ≠ ""
  unfold Nat.repr Nat.toDigits
  intro h
  have hl := congrArg (fun s : String => s.data.length) h
  simp only [List.asString] at hl
  have := toDigitsCore_length_lt 10 (n + 1) n [] (Nat.succ_pos n)
  simp only [List.length_nil] at this hl
  omega

/-- The basis-function-slot index entry produced by the body of
`__create_mapping_basis` under a given loop index (first component of
`mapping_basis_core`). -/
def mbcEntry (ctx : TransCtx) (component : Nat) (deriv : List Nat)
    (bf : UflBasisFunction) (elem : FFCElement) (loop_index : String) :
    IdxEntry :=
  (QuadratureTransformerOpt.mapping_basis_core ctx component deriv bf elem
    loop_index).1

/-- C6: for a facet-restricted basis function (restriction "+" or "-") the
space dimension recorded in the basis-slot index entry is twice the
element's un-restricted space dimension, and for the negative side a
constant offset equal to the un-restricted space dimension is added to the
loop-index expression (`grouping(add([basis_map, str(space_dim)]))`, source
lines 313-318 and 342-349); for unrestricted functions neither change is
applied. -/
theorem C6_restriction_doubling_offset (ctx : TransCtx) (component : Nat)
    (deriv : List Nat) (bf : UflBasisFunction) (elem : FFCElement)
    (loop_index : String) :
    (ctx.restriction = .plus ∨ ctx.restriction = .minus →
      (mbcEntry ctx component deriv bf elem loop_index).spaceDim =
        2 * elem.spaceDimension) ∧
    (ctx.restriction = .minus →
      (mbcEntry ctx component deriv bf elem loop_index).basisMap =
        tryEval (ctx.fmt.grouping (ctx.fmt.add
          [QuadratureTransformerOpt.preOffsetBasisMap ctx component deriv bf
            loop_index,
           toString elem.spaceDimension]))) ∧
    (ctx.restriction = .plus →
      (mbcEntry ctx component deriv bf elem loop_index).basisMap =
        tryEval (QuadratureTransformerOpt.preOffsetBasisMap ctx component
          deriv bf loop_index)) ∧
    (ctx.restriction = .nores →
      (mbcEntry ctx component deriv bf elem loop_index).spaceDim =
        elem.spaceDimension ∧
      (mbcEntry ctx component deriv bf elem loop_index).basisMap =
        tryEval (QuadratureTransformerOpt.preOffsetBasisMap ctx component
          deriv bf loop_index)) := by
  unfold mbcEntry QuadratureTransformerOpt.mapping_basis_core
    QuadratureTransformerOpt.preOffsetBasisMap
  cases hr : ctx.restriction with
  | plus =>
    refine ⟨?_, ?_, ?_, ?_⟩
    · intro _
      simp [Nat.mul_comm]
    · intro h
      simp at h
    · intro _
      simp
    · intro h
      simp at h
  | minus =>
    refine ⟨?_, ?_, ?_, ?_⟩
    · intro _
      simp [Nat.mul_comm]
    · intro _
      simp [natToString_ne_empty]
    · intro h
      simp at h
    · intro h
      simp at h
  | nores =>
    refine ⟨?_, ?_, ?_, ?_⟩
    · intro h
      rcases h with h | h <;> simp at h
    · intro h
      simp at h
    · intro h
      simp at h
    · intro _
      refine ⟨?_, ?_⟩
      · simp
      · simp

/-- `sampleCtx` with every table flagged all-zero and both zero-related
optimisation options off. -/
def ctxZeros : TransCtx :=
  { sampleCtx with nameMap := fun n => ⟨n, none, true, false⟩ }

/-- `sampleCtx` with every table flagged all-zero and the "ignore zero
tables" option on. -/
def ctxZeroOpt : TransCtx :=
  { sampleCtx with
    nameMap := fun n => ⟨n, none, true, false⟩
    ignoreZeroTables := true }

/-- C2 counterexample: with the table flagged all-zero but both the "ignore
zero tables" and "remove zero terms" options off, the resolution still
creates a BASIS table symbol and records it in `psi_tables_map` (source line
327 requires an optimisation option next to the zero flag), contradicting
the claim that an all-zero table alone forces literal 0.0 with no symbol
recorded. -/
theorem C2_zero_table_counterexample :
    QuadratureTransformerOpt.create_mapping_basis ctxZeros 0 [] ⟨0, 7⟩ ⟨3⟩ =
      .ok ([⟨0, "j", 3, 3⟩],
        Expr.symbol "FE7_C0[ip][j]" DomainTag.BASIS,
        some (Expr.symbol "FE7_C0[ip][j]" DomainTag.BASIS, "FE7_C0")) ∧
    Expr.symbol "FE7_C0[ip][j]" DomainTag.BASIS ≠ Expr.float 0 ∧
    (some (Expr.symbol "FE7_C0[ip][j]" DomainTag.BASIS, "FE7_C0") ≠
      (none : Option (Expr × String))) ∧
    (ctxZeros.nameMap
      (QuadratureTransformerOpt.psiNameOf ctxZeros 0 [] ⟨0, 7⟩)).zeros = true := by
  refine ⟨rfl, by decide, by decide, rfl⟩

/-- C2 (amended): when the resolved basis table is flagged all-zero and at
least one of the "ignore zero tables" / "remove zero terms" optimisation
options is on, the resolution yields literal 0.0 and records no table
symbol (source lines 326-334); and the entry builder, given such a literal
0.0 value, reports the structurally-zero flag after multiplying by the
quadrature weight and scale factor and optimising, recording no used
tables (source lines 468-483). -/
theorem C2_zero_table_amended (ctx : TransCtx) (component : Nat)
    (deriv : List Nat) (bf : UflBasisFunction) (elem : FFCElement)
    (li : String)
    (hli : QuadratureTransformerOpt.indices ctx.fmt bf.count = some li)
    (hz : (ctx.nameMap (QuadratureTransformerOpt.psiNameOf ctx component
      deriv bf)).zeros = true)
    (hopt : ctx.ignoreZeroTables = true ∨ ctx.removeZeroTerms = true) :
    QuadratureTransformerOpt.create_mapping_basis ctx component deriv bf
        elem =
      .ok ([mbcEntry ctx component deriv bf elem li], Expr.float 0, none) ∧
    ∀ (weight : Expr) (scale : String) (psi : List (Expr × String)),
      (QuadratureTransformerOpt.create_entry_value (Expr.float 0) weight
        scale psi).zero = true ∧
      (QuadratureTransformerOpt.create_entry_value (Expr.float 0) weight
        scale psi).usedTables = [] := by
  have hbc : ∀ (ba : String) (rng : Nat),
      QuadratureTransformerOpt.basisChoice ctx
          (ctx.nameMap (QuadratureTransformerOpt.psiNameOf ctx component
            deriv bf)) ba li rng =
        (create_float 0, li, none) := by
    intro ba rng
    unfold QuadratureTransformerOpt.basisChoice
    rw [if_pos ⟨hz, hopt⟩]
  constructor
  · unfold QuadratureTransformerOpt.create_mapping_basis
    rw [hli]
    unfold mbcEntry QuadratureTransformerOpt.mapping_basis_core
    dsimp only
    rw [hbc]
    rfl
  · intro weight scale psi
    have hval : create_product [Expr.float 0, weight,
        create_symbol scale DomainTag.GEO] = Expr.float 0 := by
      unfold create_product
      dsimp only
      rw [if_pos]
      apply List.any_eq_true.mpr
      refine ⟨Expr.float 0, ?_, by simp⟩
      simp [List.flatMap_cons, expandProd]
    unfold QuadratureTransformerOpt.create_entry_value
    dsimp only
    rw [hval]
    rw [show optimise_code (Expr.float 0) = Expr.float 0 from by
      simp [optimise_code]]
    rw [if_pos rfl]
    exact ⟨rfl, rfl⟩

/-- C2 witness: a concrete all-zero-flagged table with the "ignore zero
tables" option on resolves to literal 0.0 without a recorded symbol, and
the entry built from that value is flagged structurally zero. -/
theorem C2_zero_table_amended_witness :
    QuadratureTransformerOpt.create_mapping_basis ctxZeroOpt 0 [] ⟨0, 7⟩
        ⟨3⟩ =
      .ok ([mbcEntry ctxZeroOpt 0 [] ⟨0, 7⟩ ⟨3⟩ "j"], Expr.float 0, none) ∧
    ∀ (weight : Expr) (scale : String) (psi : List (Expr × String)),
      (QuadratureTransformerOpt.create_entry_value (Expr.float 0) weight
        scale psi).zero = true ∧
      (QuadratureTransformerOpt.create_entry_value (Expr.float 0) weight
        scale psi).usedTables = [] :=
  C2_zero_table_amended ctxZeroOpt 0 [] ⟨0, 7⟩ ⟨3⟩ "j" (by decide) (by decide)
    (Or.inl (by decide))

theorem create_mapping_basis_eq_ok (ctx : TransCtx) (component : Nat)
    (deriv : List Nat) (bf : UflBasisFunction) (elem : FFCElement)
    (li : String)
    (hli : QuadratureTransformerOpt.indices ctx.fmt bf.count = some li) :
    QuadratureTransformerOpt.create_mapping_basis ctx component deriv bf
        elem =
      .ok ([(QuadratureTransformerOpt.mapping_basis_core ctx component deriv
          bf elem li).1],
        (QuadratureTransformerOpt.mapping_basis_core ctx component deriv bf
          elem li).2.1,
        (QuadratureTransformerOpt.mapping_basis_core ctx component deriv bf
          elem li).2.2) := by
  unfold QuadratureTransformerOpt.create_mapping_basis
  rw [hli]

theorem create_mapping_basis_eq_ok_witness :
    QuadratureTransformerOpt.indices sampleCtx.fmt
        ((⟨0, 7⟩ : UflBasisFunction).count) = some "j" ∧
    QuadratureTransformerOpt.create_mapping_basis sampleCtx 0 [] ⟨0, 7⟩ ⟨3⟩ =
      .ok ([(QuadratureTransformerOpt.mapping_basis_core sampleCtx 0 [] ⟨0, 7⟩
          ⟨3⟩ "j").1],
        (QuadratureTransformerOpt.mapping_basis_core sampleCtx 0 [] ⟨0, 7⟩
          ⟨3⟩ "j").2.1,
        (QuadratureTransformerOpt.mapping_basis_core sampleCtx 0 [] ⟨0, 7⟩
          ⟨3⟩ "j").2.2) :=
  ⟨by decide, create_mapping_basis_eq_ok sampleCtx 0 [] ⟨0, 7⟩ ⟨3⟩ "j"
    (by decide)⟩

theorem flatten_map_singleton {α β : Type} (g : α → β) (l : List α) :
    (l.map fun a => [g a]).flatten = l.map g := by
  induction l with
  | nil => rfl
  | cons a as ih => simp [ih]

theorem create_basis_function_pss (ctx : TransCtx) (bf : UflBasisFunction)
    (derivatives : List Nat) (component local_comp local_offset : Nat)
    (elem : FFCElement) (t : Transformation)
    (multiindices : List (List Nat))
    (G : List (List ((Key × Expr) × Option (Expr × String))))
    (h : exceptMap
        (QuadratureTransformerOpt.cbf_multi ctx bf derivatives component
          local_comp local_offset elem t) multiindices = .ok G) :
    QuadratureTransformerOpt.create_basis_function ctx bf derivatives
        component local_comp local_offset elem t multiindices =
      .ok (finishEntries (collectPairs (G.flatten.map Prod.fst)),
        G.flatten.filterMap fun p => p.2) := by
  unfold QuadratureTransformerOpt.create_basis_function
  rw [h]
  rfl

/-- The per-(multi-index, dimension) pair list the claim C4 predicts for a
CONTRAVARIANT_PIOLA resolution: for each derivative multi-index and each
geometric dimension `c`, the reference value resolved at component
`c + local_offset` multiplied by the fraction `1/detJ` and the Jacobian
symbol `J[c][local_comp]` (both tagged GEO), passed through the
derivative chain rule, together with the recorded table binding. -/
def contraPiolaPairs (ctx : TransCtx) (bf : UflBasisFunction)
    (derivatives : List Nat) (local_comp local_offset : Nat)
    (elem : FFCElement) (li : String) (multiindices : List (List Nat)) :
    List ((Key × Expr) × Option (Expr × String)) :=
  multiindices.flatMap fun multi =>
    (List.range ctx.geo_dim).map fun c =>
      let r := QuadratureTransformerOpt.mapping_basis_core ctx
        (c + local_offset) (QuadratureTransformerOpt.derivOf ctx.geo_dim multi)
        bf elem li
      (([r.1],
        QuadratureTransformerOpt.apply_transform ctx
          (create_product
            [create_fraction (create_float 1)
              (create_symbol (ctx.fmt.determinant ctx.restriction)
                DomainTag.GEO),
             create_symbol (ctx.fmt.transform "J" c local_comp
               ctx.restriction) DomainTag.GEO,
             r.2.1])
          derivatives multi),
       r.2.2)

/-- C4: under a CONTRAVARIANT_PIOLA mapping, both the basis-function
resolution and the coefficient resolution loop every geometric dimension
`c`, resolve the reference value at component `c + local_offset`, multiply
it by the fraction `1/detJ` and the Jacobian symbol `J[c][local_comp]`
(both tagged GEO), and accumulate the per-`c` terms by summation — per
mapping key through `create_sum` for basis functions (source lines
245-277), and over the whole term list for coefficients (source lines
384-414). -/
theorem C4_contravariant_piola (ctx : TransCtx) (bf : UflBasisFunction)
    (derivatives : List Nat) (component local_comp local_offset : Nat)
    (elem : FFCElement) (multiindices : List (List Nat)) (li : String)
    (F : Nat → List Nat → Expr)
    (hli : QuadratureTransformerOpt.indices ctx.fmt bf.count = some li)
    (hF : ∀ (c : Nat) (d : List Nat), ctx.createFunctionName c d = some (F c d)) :
    QuadratureTransformerOpt.create_basis_function ctx bf derivatives
        component local_comp local_offset elem .contravariantPiola
        multiindices =
      .ok (finishEntries (collectPairs
          ((contraPiolaPairs ctx bf derivatives local_comp local_offset elem
            li multiindices).map Prod.fst)),
        (contraPiolaPairs ctx bf derivatives local_comp local_offset elem li
          multiindices).filterMap fun p => p.2) ∧
    QuadratureTransformerOpt.create_function ctx derivatives component
        local_comp local_offset .contravariantPiola multiindices =
      .ok (QuadratureTransformerOpt.finishFunction
        (multiindices.flatMap fun multi =>
          (List.range ctx.geo_dim).map fun c =>
            QuadratureTransformerOpt.apply_transform ctx
              (create_product
                [create_fraction (create_float 1)
                  (create_symbol (ctx.fmt.determinant ctx.restriction)
                    DomainTag.GEO),
                 create_symbol (ctx.fmt.transform "J" c local_comp
                   ctx.restriction) DomainTag.GEO,
                 F (c + local_offset)
                   (QuadratureTransformerOpt.derivOf ctx.geo_dim multi)])
              derivatives multi)) := by
  constructor
  · unfold QuadratureTransformerOpt.create_basis_function
    rw [exceptMap_ok
      (QuadratureTransformerOpt.cbf_multi ctx bf derivatives component
        local_comp local_offset elem .contravariantPiola)
      (fun multi => (List.range ctx.geo_dim).map fun c =>
        let r := QuadratureTransformerOpt.mapping_basis_core ctx
          (c + local_offset)
          (QuadratureTransformerOpt.derivOf ctx.geo_dim multi) bf elem li
        (([r.1],
          QuadratureTransformerOpt.apply_transform ctx
            (QuadratureTransformerOpt.piola_basis ctx .contravariantPiola
              local_comp c r.2.1) derivatives multi),
         r.2.2))
      multiindices ?_]
    · rfl
    · intro multi _
      unfold QuadratureTransformerOpt.cbf_multi
      dsimp only
      apply exceptMap_ok
      intro c _
      rw [create_mapping_basis_eq_ok ctx (c + local_offset) _ bf elem li hli]
      rfl
  · unfold QuadratureTransformerOpt.create_function
    dsimp only
    rw [exceptMap_ok
      (fun multi =>
        exceptMap (fun c =>
            match ctx.createFunctionName (c + local_offset)
                (QuadratureTransformerOpt.derivOf ctx.geo_dim multi) with
            | none => Except.error TransErr.emptyFunctionName
            | some fn =>
              Except.ok (QuadratureTransformerOpt.apply_transform ctx
                (QuadratureTransformerOpt.piola_basis ctx .contravariantPiola
                  local_comp c fn) derivatives multi))
          (List.range ctx.geo_dim))
      (fun multi => (List.range ctx.geo_dim).map fun c =>
        QuadratureTransformerOpt.apply_transform ctx
          (QuadratureTransformerOpt.piola_basis ctx .contravariantPiola
            local_comp c
            (F (c + local_offset)
              (QuadratureTransformerOpt.derivOf ctx.geo_dim multi)))
          derivatives multi)
      multiindices ?_]
    · rfl
    · intro multi _
      apply exceptMap_ok
      intro c _
      rw [hF (c + local_offset)
        (QuadratureTransformerOpt.derivOf ctx.geo_dim multi)]

/-- C4 witness: a concrete contravariant-Piola resolution over two
geometric dimensions. -/
theorem C4_contravariant_piola_witness :
    QuadratureTransformerOpt.create_basis_function sampleCtx ⟨0, 7⟩ [] 0 0 0
        ⟨3⟩ .contravariantPiola [[]] =
      .ok (finishEntries (collectPairs
          ((contraPiolaPairs sampleCtx ⟨0, 7⟩ [] 0 0 ⟨3⟩ "j" [[]]).map
            Prod.fst)),
        (contraPiolaPairs sampleCtx ⟨0, 7⟩ [] 0 0 ⟨3⟩ "j" [[]]).filterMap
          fun p => p.2) ∧
    QuadratureTransformerOpt.create_function sampleCtx [] 0 0 0
        .contravariantPiola [[]] =
      .ok (QuadratureTransformerOpt.finishFunction
        (([[]] : List (List Nat)).flatMap fun multi =>
          (List.range sampleCtx.geo_dim).map fun c =>
            QuadratureTransformerOpt.apply_transform sampleCtx
              (create_product
                [create_fraction (create_float 1)
                  (create_symbol (sampleCtx.fmt.determinant
                    sampleCtx.restriction) DomainTag.GEO),
                 create_symbol (sampleCtx.fmt.transform "J" c 0
                   sampleCtx.restriction) DomainTag.GEO,
                 Expr.symbol ("w" ++ toString (c + 0)) DomainTag.IP])
              [] multi)) :=
  C4_contravariant_piola sampleCtx ⟨0, 7⟩ [] 0 0 0 ⟨3⟩ [[]] "j"
    (fun c _ => Expr.symbol ("w" ++ toString c) DomainTag.IP) (by decide)
    (fun _ _ => rfl)

/-- The per-multi-index pair list the claim C5 predicts for an affine
resolution: each derivative multi-index contributes the product of one
GEO-tagged inverse-Jacobian symbol `JINV[multi[i]][derivatives[i]]` per
derivative direction with the resolved basis value, at the resolution's
mapping key, together with the recorded table binding. -/
def affineChainPair (ctx : TransCtx) (bf : UflBasisFunction)
    (derivatives : List Nat) (component : Nat) (elem : FFCElement)
    (li : String) (multi : List Nat) :
    (Key × Expr) × Option (Expr × String) :=
  let r := QuadratureTransformerOpt.mapping_basis_core ctx component
    (QuadratureTransformerOpt.derivOf ctx.geo_dim multi) bf elem li
  (([r.1],
    create_product ((derivatives.enum.map fun p =>
      create_symbol (ctx.fmt.transform "JINV" (multi.getD p.1 0) p.2
        ctx.restriction) DomainTag.GEO) ++ [r.2.1])),
   r.2.2)

/-- The list of `affineChainPair`s over all derivative multi-indices. -/
def affineChainPairs (ctx : TransCtx) (bf : UflBasisFunction)
    (derivatives : List Nat) (component : Nat) (elem : FFCElement)
    (li : String) (multiindices : List (List Nat)) :
    List ((Key × Expr) × Option (Expr × String)) :=
  multiindices.map (affineChainPair ctx bf derivatives component elem li)

/-- C5: for a basis-function or coefficient leaf (affine mapping), the
result for each derivative multi-index is the product of one GEO-tagged
inverse-Jacobian transform symbol `JINV[multi[i]][derivatives[i]]` per
derivative direction with the resolved basis value (`__apply_transform`,
source lines 419-430), and the per-multi-index results are then combined by
summation — per mapping key through `create_sum` for basis functions
(source lines 272-277), and over the produced term list for coefficients
(source lines 407-412). -/
theorem C5_derivative_chain_rule (ctx : TransCtx) (bf : UflBasisFunction)
    (derivatives : List Nat) (component local_comp local_offset : Nat)
    (elem : FFCElement) (multiindices : List (List Nat)) (li : String)
    (hli : QuadratureTransformerOpt.indices ctx.fmt bf.count = some li) :
    QuadratureTransformerOpt.create_basis_function ctx bf derivatives
        component local_comp local_offset elem .affine multiindices =
      .ok (finishEntries (collectPairs
          ((affineChainPairs ctx bf derivatives component elem li
            multiindices).map Prod.fst)),
        (affineChainPairs ctx bf derivatives component elem li
          multiindices).filterMap fun p => p.2) ∧
    QuadratureTransformerOpt.create_function ctx derivatives component
        local_comp local_offset .affine multiindices =
      .ok (QuadratureTransformerOpt.finishFunction
        (multiindices.filterMap fun multi =>
          (ctx.createFunctionName component
            (QuadratureTransformerOpt.derivOf ctx.geo_dim multi)).map
            fun fn =>
              create_product ((derivatives.enum.map fun p =>
                create_symbol (ctx.fmt.transform "JINV" (multi.getD p.1 0)
                  p.2 ctx.restriction) DomainTag.GEO) ++ [fn]))) := by
  constructor
  · rw [create_basis_function_pss ctx bf derivatives component local_comp
      local_offset elem .affine multiindices _
      (exceptMap_ok
        (QuadratureTransformerOpt.cbf_multi ctx bf derivatives component
          local_comp local_offset elem .affine)
        (fun multi =>
          [affineChainPair ctx bf derivatives component elem li multi])
        multiindices ?_)]
    · rw [flatten_map_singleton
        (affineChainPair ctx bf derivatives component elem li) multiindices]
      rfl
    · intro multi _
      unfold QuadratureTransformerOpt.cbf_multi
      dsimp only
      rw [create_mapping_basis_eq_ok ctx component _ bf elem li hli]
      rfl
  · rfl

/-- C5 witness: a concrete affine resolution carrying one derivative
direction. -/
theorem C5_derivative_chain_rule_witness :
    QuadratureTransformerOpt.create_basis_function sampleCtx ⟨0, 7⟩ [1] 0 0 0
        ⟨3⟩ .affine [[0], [1]] =
      .ok (finishEntries (collectPairs
          ((affineChainPairs sampleCtx ⟨0, 7⟩ [1] 0 ⟨3⟩ "j"
            [[0], [1]]).map Prod.fst)),
        (affineChainPairs sampleCtx ⟨0, 7⟩ [1] 0 ⟨3⟩ "j"
          [[0], [1]]).filterMap fun p => p.2) ∧
    QuadratureTransformerOpt.create_function sampleCtx [1] 0 0 0 .affine
        [[0], [1]] =
      .ok (QuadratureTransformerOpt.finishFunction
        (([[0], [1]] : List (List Nat)).filterMap fun multi =>
          (sampleCtx.createFunctionName 0
            (QuadratureTransformerOpt.derivOf sampleCtx.geo_dim multi)).map
            fun fn =>
              create_product ((([1] : List Nat).enum.map fun p =>
                create_symbol (sampleCtx.fmt.transform "JINV"
                  (multi.getD p.1 0) p.2 sampleCtx.restriction)
                  DomainTag.GEO) ++ [fn]))) :=
  C5_derivative_chain_rule sampleCtx ⟨0, 7⟩ [1] 0 0 0 ⟨3⟩ [[0], [1]] "j"
    (by decide)

/-- C10: for a coefficient-function leaf under the affine mapping, when
every derivative multi-index yields an empty resolution (no function name
produced), `create_function` skips them all (`if not function_name:
continue`, source lines 378-379) and returns the literal 0.0 rather than
failing (source lines 407-408); when exactly one term is produced it is
returned unwrapped, and with more than one the terms are summed (source
lines 409-412). -/
theorem C10_function_empty_resolution (ctx : TransCtx)
    (derivatives : List Nat) (component local_comp local_offset : Nat)
    (multiindices : List (List Nat)) :
    ((∀ multi ∈ multiindices,
        ctx.createFunctionName component
          (QuadratureTransformerOpt.derivOf ctx.geo_dim multi) = none) →
      QuadratureTransformerOpt.create_function ctx derivatives component
        local_comp local_offset .affine multiindices = .ok (Expr.float 0)) ∧
    (∀ e : Expr,
      (multiindices.filterMap fun multi =>
        (ctx.createFunctionName component
          (QuadratureTransformerOpt.derivOf ctx.geo_dim multi)).map fun fn =>
            QuadratureTransformerOpt.apply_transform ctx fn derivatives
              multi) = [e] →
      QuadratureTransformerOpt.create_function ctx derivatives component
        local_comp local_offset .affine multiindices = .ok e) ∧
    (∀ (e1 e2 : Expr) (rest : List Expr),
      (multiindices.filterMap fun multi =>
        (ctx.createFunctionName component
          (QuadratureTransformerOpt.derivOf ctx.geo_dim multi)).map fun fn =>
            QuadratureTransformerOpt.apply_transform ctx fn derivatives
              multi) = e1 :: e2 :: rest →
      QuadratureTransformerOpt.create_function ctx derivatives component
        local_comp local_offset .affine multiindices =
        .ok (create_sum (e1 :: e2 :: rest))) := by
  refine ⟨?_, ?_, ?_⟩
  · intro hall
    unfold QuadratureTransformerOpt.create_function
    dsimp only
    rw [show (multiindices.filterMap fun multi =>
        (ctx.createFunctionName component
          (QuadratureTransformerOpt.derivOf ctx.geo_dim multi)).map fun fn =>
            QuadratureTransformerOpt.apply_transform ctx fn derivatives
              multi) = ([] : List Expr) from
      List.filterMap_eq_nil_iff.mpr fun multi hm => by
        rw [hall multi hm]
        rfl]
    rfl
  · intro e he
    unfold QuadratureTransformerOpt.create_function
    dsimp only
    rw [he]
    rfl
  · intro e1 e2 rest he
    unfold QuadratureTransformerOpt.create_function
    dsimp only
    rw [he]
    rfl
